import Mathlib

/-!
Verification of the subject-property identification and fuzzy matching engine
of the RentAI_CompSet repository (server/routes.ts).

Embedding conventions:
* JavaScript strings are modelled as `List Char`; `undefined`/missing strings
  and the empty string are both modelled as `[]` (both are falsy in the code's
  guards, which is the only way the code distinguishes them).
* JavaScript numbers are modelled as exact `Nat` arithmetic.  `Math.round` of a
  non-negative quotient `num / den` is modelled exactly as
  `jsRound num den = ⌊num / den + 1/2⌋` (round half towards +∞, the behaviour
  of `Math.round` on non-negative arguments).
* The similarity percentage `((maxLen - dist) / maxLen) * 100` is the one spot
  where binary64 rounding of intermediates is observable (the quotient is not
  exactly representable and the exact value can be a half point), so there the
  embedding follows IEEE-754 round-to-nearest-even for the division and the
  multiplication (`fp64`, `jsSimilarityRound`) before the final `Math.round`.
* Regex whole-word replacement `str.replace(/\bw\b/g, r)` is modelled by
  `replaceWord`, which scans the string left to right, replacing each
  non-overlapping occurrence of `w` that is delimited by non-word characters
  (JS `\w` = letters, digits, underscore).  All replaced words in the source
  are purely alphabetic, so the word-boundary conditions reduce to: the
  character before the occurrence is not a word character (or the occurrence is
  at the start) and the character after it is not a word character (or it is at
  the end).
* The human-readable `reasons` strings and log output carry no control flow and
  are omitted from the embedding; all numeric fields of the match result are
  kept.
-/

namespace RentAI

/-- Model of `Math.round (num / den)` for natural `num`, `den` (`den > 0` at
every use site): round half towards positive infinity. -/
def jsRound (num den : Nat) : Nat := (2 * num + den) / (2 * den)

/-- JS `\w` word characters: letters, digits and underscore. -/
def isWordChar (c : Char) : Bool := c.isAlphanum || c = '_'

/-- First character of a string is a word character (`false` on the empty
string, i.e. at the end of the subject string). -/
def headIsWordChar (s : List Char) : Bool :=
  match s with
  | [] => false
  | c :: _ => isWordChar c

/-- Model of `String.prototype.trim`. -/
def trimBoth (s : List Char) : List Char :=
  ((s.dropWhile Char.isWhitespace).reverse.dropWhile Char.isWhitespace).reverse

/-- Model of `str.replace(/\s+/g, ' ')`: the auxiliary flag records whether the
previous character was part of a whitespace run already emitted as `' '`. -/
def collapseWsAux : Bool → List Char → List Char
  | _, [] => []
  | prevWs, c :: rest =>
    if c.isWhitespace then
      if prevWs then collapseWsAux true rest
      else ' ' :: collapseWsAux true rest
    else c :: collapseWsAux false rest

/-- Collapse every whitespace run to a single space. -/
def collapseWs (s : List Char) : List Char := collapseWsAux false s

/-- One left-to-right pass of `str.replace(/\bw\b/g, repl)` for a non-empty,
purely alphabetic word `w`.  `prevIsWord` tells whether the character just
before the current position (in the original string) is a word character.  The
fuel argument is `s.length` at the top call; every step consumes at least one
character of `s` because `w` is non-empty, so the fuel never runs out. -/
def replaceWordAux (w repl : List Char) : Nat → Bool → List Char → List Char
  | 0, _, s => s
  | _ + 1, _, [] => []
  | fuel + 1, prevIsWord, c :: rest =>
    if prevIsWord = false ∧ List.isPrefixOf w (c :: rest) ∧
        headIsWordChar ((c :: rest).drop w.length) = false then
      repl ++ replaceWordAux w repl fuel true ((c :: rest).drop w.length)
    else
      c :: replaceWordAux w repl fuel (isWordChar c) rest

/-- Whole-word global replacement; the flag passed after a successful match is
`true` because every replaced word of the source ends in a letter. -/
def replaceWord (w repl s : List Char) : List Char :=
  replaceWordAux w repl s.length false s

/-- The replacement chain of `normalizeAddress` (routes.ts:1599-1618), in the
source's order: street-type abbreviations first, then single-word directionals,
then multi-word directionals. -/
def addressReplacements : List (List Char × List Char) :=
  [("street".data, "st".data), ("avenue".data, "ave".data),
   ("boulevard".data, "blvd".data), ("drive".data, "dr".data),
   ("road".data, "rd".data), ("lane".data, "ln".data),
   ("plaza".data, "plz".data), ("circle".data, "cir".data),
   ("parkway".data, "pkwy".data), ("court".data, "ct".data),
   ("north".data, "n".data), ("south".data, "s".data),
   ("east".data, "e".data), ("west".data, "w".data),
   ("northeast".data, "ne".data), ("northwest".data, "nw".data),
   ("southeast".data, "se".data), ("southwest".data, "sw".data)]

/-- Embedding of `normalizeAddress` (routes.ts:1591-1622). -/
def normalizeAddress (address : List Char) : List Char :=
  if address = [] then []
  else
    let s := address.map Char.toLower
    let s := trimBoth s
    let s := s.filter (fun c => !(c == '.' || c == ',' || c == ';' || c == '#'))
    let s := addressReplacements.foldl (fun acc p => replaceWord p.1 p.2 acc) s
    let s := collapseWs s
    trimBoth s

/-- Embedding of `extractStreetNumber` (routes.ts:1624-1627): the leading digit
run of the raw string, `[]` if the string does not start with a digit. -/
def extractStreetNumber (address : List Char) : List Char :=
  address.takeWhile Char.isDigit

/-- Model of `streetPart.replace(/^\d+\s*/, '')`: if the string starts with a
digit, drop the leading digit run and the following whitespace run. -/
def stripLeadingDigits (s : List Char) : List Char :=
  match s with
  | [] => []
  | c :: _ =>
    if c.isDigit then (s.dropWhile Char.isDigit).dropWhile Char.isWhitespace
    else s

/-- Embedding of `extractStreetName` (routes.ts:1629-1638): normalize, take the
part before the first comma, strip the leading street number, trim. -/
def extractStreetName (address : List Char) : List Char :=
  let normalized := normalizeAddress address
  let parts := normalized.splitOn ','
  match parts with
  | [] => normalized
  | streetPart :: _ => trimBoth (stripLeadingDigits (trimBoth streetPart))

/-- Model of `s.replace(/^(the)\s+/i, '')` on an already lower-cased string:
strip a leading "the" only when followed by at least one whitespace character,
together with that whitespace run. -/
def stripLeadingThe (s : List Char) : List Char :=
  if List.isPrefixOf "the".data s && (s.drop 3).head?.any Char.isWhitespace then
    (s.drop 3).dropWhile Char.isWhitespace
  else s

/-- The generic trailing suffix words of
`replace(/\s+(apartments?|apt|residences?|homes?|towers?|place|commons?)$/i, '')`,
with the optional plural `s?` expanded. -/
def nameSuffixWords : List (List Char) :=
  ["apartments".data, "apartment".data, "apt".data, "residences".data,
   "residence".data, "homes".data, "home".data, "towers".data, "tower".data,
   "place".data, "commons".data, "common".data]

/-- Whether the whole remaining string is one-or-more whitespace characters
followed exactly by one of the suffix words (the regex is anchored at `$`). -/
def wsThenSuffix (s : List Char) : Bool :=
  decide (s.takeWhile Char.isWhitespace ≠ []) &&
    nameSuffixWords.contains (s.dropWhile Char.isWhitespace)

/-- Scan for the leftmost position at which `\s+(suffix)$` matches and drop the
match (replace by the empty string). -/
def stripTrailingSuffixAux : List Char → List Char
  | [] => []
  | c :: rest =>
    if wsThenSuffix (c :: rest) then []
    else c :: stripTrailingSuffixAux rest

/-- Embedding of `normalizePropertyName` (routes.ts:1640-1652). -/
def normalizePropertyName (name : List Char) : List Char :=
  if name = [] then []
  else
    let s := name.map Char.toLower
    let s := trimBoth s
    let s := stripLeadingThe s
    let s := stripTrailingSuffixAux s
    let s := collapseWs s
    trimBoth s

/-- Model of `str.replace(pat, '')` with a plain-string pattern: remove the
first occurrence of `pat` (used with `pat = "the"` in the core-name fallback of
the property-name component).  `pat` is non-empty at every use site. -/
def removeFirstOcc (pat : List Char) : List Char → List Char
  | [] => []
  | c :: rest =>
    if List.isPrefixOf pat (c :: rest) then (c :: rest).drop pat.length
    else c :: removeFirstOcc pat rest

/-- Model of `String.prototype.includes`: `needle` occurs contiguously in
`hay`. -/
def listIncludes (needle hay : List Char) : Bool :=
  hay.tails.any (fun t => List.isPrefixOf needle t)

/-- One cell of the Levenshtein matrix (routes.ts:1672-1682): `diag` is
`matrix[i-1][j-1]`, `left` is `matrix[i][j-1]`, `up` is `matrix[i-1][j]`. -/
def levCell (x y : Char) (diag left up : Nat) : Nat :=
  if x = y then diag
  else Nat.min (diag + 1) (Nat.min (left + 1) (up + 1))

/-- The inner `j` loop filling one row of the matrix: `ys` are the remaining
characters of the second string, `prev` the remaining cells of the previous
row (`matrix[i-1][j..]`). -/
def levFillRow (x : Char) : List Char → List Nat → Nat → Nat → List Nat
  | y :: ys, p :: ps, diag, left =>
    let cell := levCell x y diag left p
    cell :: levFillRow x ys ps p cell
  | _, _, _, _ => []

/-- The outer `i` loop step: from row `i` (headed by `matrix[i][0] = i`)
compute row `i+1` for the character `x = str1[i]`. -/
def levNextRow (x : Char) (ys : List Char) (prev : List Nat) (i1 : Nat) : List Nat :=
  match prev with
  | [] => []
  | d :: ps => i1 :: levFillRow x ys ps d i1

/-- The full dynamic program of routes.ts:1660-1687: row 0 is
`[0, 1, ..., len2]` and the result is `matrix[len1][len2]`, the last cell of
the last row. -/
def levMatrixDist (s1 s2 : List Char) : Nat :=
  let final :=
    s1.foldl (fun (acc : List Nat × Nat) x =>
      (levNextRow x s2 acc.1 (acc.2 + 1), acc.2 + 1)) (List.range (s2.length + 1), 0)
  final.1.getLastD 0

/-- Round the fraction `num / den` to the nearest integer with ties to even —
the rounding of IEEE-754 round-to-nearest, used for every JS arithmetic
result; `den > 0` at every use. -/
def natRoundHalfEven (num den : Nat) : Nat :=
  if 2 * (num % den) < den then num / den
  else if den < 2 * (num % den) then num / den + 1
  else if (num / den) % 2 = 0 then num / den else num / den + 1

/-- Smallest exponent `j` with `2 ^ 52 * den ≤ num * 2 ^ j`, found by a
fuel-bounded search (the fuel covers every value reachable in the similarity
computation). -/
def fpScaleExp (num den : Nat) : Nat → Nat → Nat
  | 0, j => j
  | fuel + 1, j =>
    if num * 2 ^ j < 2 ^ 52 * den then fpScaleExp num den fuel (j + 1) else j

/-- The binary64 (IEEE-754 double) value nearest to the fraction `num / den`,
as a significand/scale pair `(m, e)` standing for `m / 2 ^ e`: the fraction is
scaled into the significand range `[2 ^ 52, 2 ^ 53)` and rounded there to the
nearest integer, ties to even.  Faithful for the values the similarity
computation feeds it (positive fractions below `2 ^ 53`, well inside the
normal double range). -/
def fp64 (num den : Nat) : Nat × Nat :=
  if num = 0 then (0, 0)
  else
    (natRoundHalfEven (num * 2 ^ fpScaleExp num den 1200 0) den,
     fpScaleExp num den 1200 0)

/-- The expression `Math.round(((maxLen - dist) / maxLen) * 100)` of
routes.ts:1687-1689 as binary64 evaluates it: `maxLen` and the matrix entry
are exact small integers in binary64 (so the subtraction `diff` is exact), the
division and the multiplication by 100 each round to the nearest double, and
`Math.round` returns the integer closest to the exact value of the resulting
double, halves toward positive infinity (`jsRound`). -/
def jsSimilarityRound (diff maxLen : Nat) : Nat :=
  let q := fp64 diff maxLen
  let p := fp64 (100 * q.1) (2 ^ q.2)
  jsRound p.1 (2 ^ p.2)

/-- Embedding of `calculateStringSimilarity` (routes.ts:1655-1690); the final
percentage follows the binary64 evaluation of the source expression
(`jsSimilarityRound`), which can land one below the exact rational rounding at
half-point inputs. -/
def calculateStringSimilarity (str1 str2 : List Char) : Nat :=
  if str1 = [] ∨ str2 = [] then 0
  else if str1 = str2 then 100
  else
    let maxLen := Nat.max str1.length str2.length
    if maxLen = 0 then 100
    else jsSimilarityRound (maxLen - levMatrixDist str1 str2) maxLen

/-- Classic unit-cost Levenshtein edit distance (specification-side reference
definition, used to state what the dynamic program of the source computes). -/
def levenshtein : List Char → List Char → Nat
  | [], t => t.length
  | x :: s, [] => (x :: s).length
  | x :: s, y :: t =>
    if x = y then levenshtein s t
    else 1 + Nat.min (levenshtein s t)
      (Nat.min (levenshtein (x :: s) t) (levenshtein s (y :: t)))
termination_by s t => s.length + t.length
decreasing_by all_goals simp +arith

def rowFrom (s1p : List Char) : List Char → List Char → List Nat
  | _, [] => []
  | u, y :: ys => levenshtein s1p (u ++ [y]) :: rowFrom s1p (u ++ [y]) ys

/-- The subject property record as read from storage: `propertyName` and
`address` are the user-entered strings, `city`/`state` are nullable columns
(modelled as `[]` when absent, matching the code's truthiness guards). -/
structure SubjectRecord where
  propertyName : List Char
  address : List Char
  city : List Char
  state : List Char
deriving DecidableEq, Repr

/-- One discovered candidate listing `{name, address, url}` as returned by the
listings-discovery service. -/
structure CandidateListing where
  name : List Char
  address : List Char
  url : List Char
deriving DecidableEq, Repr

/-- The numeric content of the object returned by `calculatePropertyMatch`:
`totalScore`/`maxPossibleScore` are the fields of `matchDetails`; the
`reasons` log strings are omitted. -/
structure MatchResult where
  isMatch : Bool
  score : Nat
  totalScore : Nat
  maxPossibleScore : Nat
deriving DecidableEq, Repr

/-- Component 1, street number (routes.ts:1729-1752): 30 points for an exact
match, 15 when one number is a prefix of the other, 10 when either side is
missing, otherwise 0 (the `else if` mirrors the source's redundant guard). -/
def streetNumberPoints (sn cn : List Char) : Nat :=
  if sn ≠ [] ∧ cn ≠ [] then
    if sn = cn then 30
    else if List.isPrefixOf cn sn ∨ List.isPrefixOf sn cn then 15
    else 0
  else if sn = [] ∨ cn = [] then 10
  else 0

/-- Component 2, street name similarity (routes.ts:1754-1776). -/
def streetNamePoints (ssn csn : List Char) : Nat :=
  if ssn ≠ [] ∧ csn ≠ [] then
    let sim := calculateStringSimilarity ssn csn
    if 80 ≤ sim then jsRound (sim * 25) 100
    else if 60 ≤ sim then jsRound (sim * 20) 100
    else 0
  else 0

/-- Words of length `> 2` of a normalized name (`split(' ')` then filter). -/
def significantWords (s : List Char) : List (List Char) :=
  ((s.map Char.toLower).splitOn ' ').filter (fun w => 2 < w.length)

/-- Component 3, property name with containment override
(routes.ts:1778-1820).  The containment test `commonWords / min * 100 >= 50`
is modelled as `min ≤ 2 * common` together with `min ≠ 0` (when `min = 0` the
JS quotient is `NaN`, and `NaN >= 50` is false). -/
def propertyNamePoints (sn cn : List Char) : Nat :=
  if sn ≠ [] ∧ cn ≠ [] then
    let sim := calculateStringSimilarity sn cn
    let subjectWords := significantWords sn
    let scrapedWords := significantWords cn
    let commonWords := subjectWords.filter (fun w => scrapedWords.contains w)
    let minWords := Nat.min subjectWords.length scrapedWords.length
    if 70 ≤ sim then 20
    else if (minWords ≠ 0 ∧ minWords ≤ 2 * commonWords.length) ∨
        listIncludes cn sn ∨ listIncludes sn cn then 15
    else if 50 ≤ sim then jsRound (sim * 20) 100
    else if trimBoth (removeFirstOcc "the".data sn) =
        trimBoth (removeFirstOcc "the".data cn) then 12
    else 0
  else 0

/-- Component 4, full-address similarity (routes.ts:1822-1830): awarded only
when the similarity of the two normalized addresses reaches 70%. -/
def fullAddressPoints (sa ca : List Char) : Nat :=
  let sim := calculateStringSimilarity sa ca
  if 70 ≤ sim then jsRound (sim * 15) 100 else 0

/-- Component 5, city/state context (routes.ts:1832-1845): 5 points for the
normalized city and 5 for the normalized state appearing as substrings of the
candidate's normalized address; the whole component is skipped when the
subject has neither city nor state. -/
def cityStatePoints (city state scrapedAddress : List Char) : Nat :=
  if city ≠ [] ∨ state ≠ [] then
    let subjectCity := normalizeAddress city
    let subjectState := normalizeAddress state
    (if subjectCity ≠ [] ∧ listIncludes subjectCity scrapedAddress then 5 else 0) +
    (if subjectState ≠ [] ∧ listIncludes subjectState scrapedAddress then 5 else 0)
  else 0

/-- Embedding of `calculatePropertyMatch` (routes.ts:1693-1874).  Each
`maxPossibleScore +=` of the source is unconditional, so the accumulated
maximum is `30 + 25 + 20 + 15 + 10`. -/
def calculatePropertyMatch (subjectProperty : SubjectRecord)
    (scrapedProperty : CandidateListing) : MatchResult :=
  let subjectName := normalizePropertyName subjectProperty.propertyName
  let subjectAddress := normalizeAddress subjectProperty.address
  let subjectStreetNumber := extractStreetNumber subjectProperty.address
  let subjectStreetName := extractStreetName subjectProperty.address
  let scrapedName := normalizePropertyName scrapedProperty.name
  let scrapedAddress := normalizeAddress scrapedProperty.address
  let scrapedStreetNumber := extractStreetNumber scrapedProperty.address
  let scrapedStreetName := extractStreetName scrapedProperty.address
  let totalScore :=
    streetNumberPoints subjectStreetNumber scrapedStreetNumber +
    streetNamePoints subjectStreetName scrapedStreetName +
    propertyNamePoints subjectName scrapedName +
    fullAddressPoints subjectAddress scrapedAddress +
    cityStatePoints subjectProperty.city subjectProperty.state scrapedAddress
  let maxPossibleScore := 30 + 25 + 20 + 15 + 10
  let finalScore :=
    if 0 < maxPossibleScore then jsRound (totalScore * 100) maxPossibleScore else 0
  { isMatch := decide (50 ≤ finalScore)
    score := finalScore
    totalScore := totalScore
    maxPossibleScore := maxPossibleScore }

/-- A scraped property row as persisted by `storage.createScrapedProperty`
during the scoring loop (routes.ts:2089-2098); `id` models the fresh id the
storage layer assigns at creation (creation order), `matchScore` is kept as a
number.  `distance` and job bookkeeping are omitted. -/
structure Stored where
  id : Nat
  name : List Char
  address : List Char
  url : List Char
  matchScore : Nat
  isSubjectProperty : Bool
deriving DecidableEq, Repr

/-- The loop state of the scoring pass (routes.ts:2052-2102):
`scrapedProperties`, `subjectPropertyFound` and `bestMatch` (candidate and
score). -/
structure ScanState where
  stored : List Stored
  found : Bool
  best : Option CandidateListing
  bestScore : Nat
deriving DecidableEq, Repr

/-- A discovered candidate is processed only when name, address and url are
all truthy (routes.ts:2058-2061). -/
def isCompleteCandidate (c : CandidateListing) : Bool :=
  !(c.name.isEmpty || c.address.isEmpty || c.url.isEmpty)

/-- One iteration of the scoring loop (routes.ts:2057-2101): skip incomplete
candidates; otherwise score, remember whether a confident match was seen,
update the strict running best, and persist the row with
`isSubjectProperty = matchResult.isMatch`. -/
def scanStep (subject : SubjectRecord) (st : ScanState) (c : CandidateListing) :
    ScanState :=
  if isCompleteCandidate c then
    let m := calculatePropertyMatch subject c
    { stored := st.stored ++
        [{ id := st.stored.length, name := c.name, address := c.address,
           url := c.url, matchScore := m.score, isSubjectProperty := m.isMatch }]
      found := st.found || m.isMatch
      best := if st.bestScore < m.score then some c else st.best
      bestScore := if st.bestScore < m.score then m.score else st.bestScore }
  else st

/-- The whole scoring pass over a discovery batch. -/
def scanBatch (subject : SubjectRecord) (batch : List CandidateListing) :
    ScanState :=
  batch.foldl (scanStep subject) ⟨[], false, none, 0⟩

/-- Model of `scrapedProperties.find(p => p.url === u)` followed by
`storage.updateScrapedProperty(found.id, {isSubjectProperty: true})`: mark the
first row with the given url; the boolean reports whether a row was found (the
storage update itself always succeeds on an existing id). -/
def markFirstWithUrl (u : List Char) : List Stored → List Stored × Bool
  | [] => ([], false)
  | p :: ps =>
    if p.url = u then ({ p with isSubjectProperty := true } :: ps, true)
    else
      let r := markFirstWithUrl u ps
      (p :: r.1, r.2)

/-- Model of marking `scrapedProperties[0]` as subject. -/
def markHead : List Stored → List Stored
  | [] => []
  | p :: ps => { p with isSubjectProperty := true } :: ps

/-- The fallback cascade that runs after the scoring loop
(routes.ts:2104-2174): FALLBACK 1 (best score ≥ 40), FALLBACK 2 (any best,
batch non-empty), FALLBACK 3 (first stored property). -/
def applyFallbacks (st : ScanState) : List Stored :=
  let r1 : List Stored × Bool :=
    match st.best with
    | some b =>
      if st.found = false ∧ 40 ≤ st.bestScore then
        let m := markFirstWithUrl b.url st.stored
        (m.1, st.found || m.2)
      else (st.stored, st.found)
    | none => (st.stored, st.found)
  let r2 : List Stored × Bool :=
    match st.best with
    | some b =>
      if r1.2 = false ∧ r1.1 ≠ [] then
        let m := markFirstWithUrl b.url r1.1
        (m.1, r1.2 || m.2)
      else r1
    | none => r1
  let r3 : List Stored × Bool :=
    if r2.2 = false ∧ r2.1 ≠ [] then (markHead r2.1, true) else r2
  r3.1

/-- The full subject-resolution pass of the scrape endpoint's background job:
score and persist every complete candidate, then run the fallback cascade.
Returns the final persisted batch. -/
def resolveBatch (subject : SubjectRecord) (batch : List CandidateListing) :
    List Stored :=
  applyFallbacks (scanBatch subject batch)

/-- Number of rows flagged as the subject property. -/
def countFlagged (l : List Stored) : Nat :=
  (l.filter (fun p => p.isSubjectProperty)).length

/-- The candidate view of a stored row, as passed to
`calculatePropertyMatch(property, scrapedProp)` by the sync endpoint. -/
def candOf (p : Stored) : CandidateListing := ⟨p.name, p.address, p.url⟩

/-- Outcome of the subject lookup (with fuzzy fallback) of the sync-units
endpoint for one scraping job (routes.ts:2505-2548): the selected subject row
if any, whether the fuzzy fallback was used, and the `searchAttempts` entries
(name and score of every candidate examined by the fallback). -/
structure SyncOutcome where
  selected : Option Stored
  fallbackUsed : Bool
  searchAttempts : List (List Char × Nat)
deriving DecidableEq, Repr

/-- Score of a stored row against the subject, as recomputed by the sync
fallback (the row's persisted `matchScore` is not consulted). -/
def syncScore (subject : SubjectRecord) (p : Stored) : Nat :=
  (calculatePropertyMatch subject (candOf p)).score

/-- One iteration of the sync fallback loop (routes.ts:2522-2539): push the
`searchAttempts` entry and update the strict running best. -/
def syncStep (subject : SubjectRecord)
    (acc : (Option Stored × Nat) × List (List Char × Nat)) (p : Stored) :
    (Option Stored × Nat) × List (List Char × Nat) :=
  let m := calculatePropertyMatch subject (candOf p)
  ((if acc.1.2 < m.score then (some p, m.score) else acc.1),
   acc.2 ++ [(p.name, m.score)])

/-- Embedding of the subject lookup of `/api/properties/:id/sync-units` for a
job's scraped properties: first try the row already flagged
`isSubjectProperty`; otherwise score every row against the subject and use the
strict running best only when its score reaches 40. -/
def syncFindSubject (subject : SubjectRecord) (props : List Stored) :
    SyncOutcome :=
  match props.find? (fun p => p.isSubjectProperty) with
  | some s => ⟨some s, false, []⟩
  | none =>
    if props ≠ [] then
      let scan := props.foldl (syncStep subject) ((none, 0), [])
      match scan.1.1 with
      | some b => if 40 ≤ scan.1.2 then ⟨some b, true, scan.2⟩ else ⟨none, false, scan.2⟩
      | none => ⟨none, false, scan.2⟩
    else ⟨none, false, []⟩

/-- Response of the manual set-subject endpoint, paired with the state of the
batch after the call. -/
structure SetSubjectOutcome where
  status : Nat
  properties : List Stored
deriving DecidableEq, Repr

/-- Embedding of `/api/properties/:id/set-subject` (routes.ts:2357-2412) for
one batch: the handler looks up the requested scraped property, iterates the
batch logging the rows it would unmark ("implementation would need to be added
to storage" per the source comment) and logs the row it would mark, then
replies 200 — it performs no storage update, so the batch state is returned
unchanged. -/
def setSubjectEndpoint (props : List Stored) (scrapedPropertyId : Nat) :
    SetSubjectOutcome :=
  match props.find? (fun p => p.id = scrapedPropertyId) with
  | none => ⟨404, props⟩
  | some _ => ⟨200, props⟩

/-- Score of a candidate against the subject. -/
def scoreOf (subject : SubjectRecord) (c : CandidateListing) : Nat :=
  (calculatePropertyMatch subject c).score

/-- One step of the `bestMatch` running-maximum update (strict comparison, so
ties keep the earlier holder). -/
def bestStep {α : Type} (f : α → Nat) (acc : Option α × Nat) (c : α) :
    Option α × Nat :=
  if acc.2 < f c then (some c, f c) else acc

/-- Maximum of `f` over a list (`0` on the empty list). -/
def listMaxBy {α : Type} (f : α → Nat) (l : List α) : Nat :=
  l.foldr (fun c m => Nat.max (f c) m) 0

/-- The stored row created for a candidate persisted with id `n`. -/
def storedOf (subject : SubjectRecord) (n : Nat) (c : CandidateListing) : Stored :=
  { id := n, name := c.name, address := c.address, url := c.url,
    matchScore := (calculatePropertyMatch subject c).score,
    isSubjectProperty := (calculatePropertyMatch subject c).isMatch }

/-- The rows persisted by the scoring loop for a batch, ids starting at `n`:
one row per complete candidate, in input order. -/
def storedRows (subject : SubjectRecord) : Nat → List CandidateListing → List Stored
  | _, [] => []
  | n, c :: cs =>
    if isCompleteCandidate c then
      storedOf subject n c :: storedRows subject (n + 1) cs
    else storedRows subject n cs

/-- The complete candidates of a batch, in input order. -/
def completeOf (batch : List CandidateListing) : List CandidateListing :=
  batch.filter (fun c => isCompleteCandidate c)

/-- Whether some processed candidate was a confident match. -/
def anyConfident (subject : SubjectRecord) (batch : List CandidateListing) : Bool :=
  (completeOf batch).any (fun c => (calculatePropertyMatch subject c).isMatch)

/-- The `bestMatch` pair at the end of the scoring loop. -/
def bestOf (subject : SubjectRecord) (batch : List CandidateListing) :
    Option CandidateListing × Nat :=
  (completeOf batch).foldl (bestStep (scoreOf subject)) (none, 0)

/-- A subject record with empty name and address and no city/state. -/
def emptySubject : SubjectRecord := ⟨[], [], [], []⟩

/-- A candidate listing with empty name and address. -/
def emptyCandidate : CandidateListing := ⟨[], [], []⟩

/-- Subject whose name and address every candidate of `c1Batch` matches
exactly. -/
def c1Subject : SubjectRecord := ⟨"duo".data, "222 main st".data, [], []⟩

/-- Two distinct candidates that both score 90 against `c1Subject`. -/
def c1Batch : List CandidateListing :=
  [⟨"duo".data, "222 main st".data, "u1".data⟩,
   ⟨"duo".data, "222 main st".data, "u2".data⟩]

/-- A stored batch whose first row is the current subject; the second row is
the one the override will request. -/
def c5Props : List Stored :=
  [⟨0, "a".data, "b".data, "u1".data, 90, true⟩,
   ⟨1, "c".data, "d".data, "u2".data, 80, false⟩]

/-- A single unflagged stored row that scores 10 (strictly between 0 and 40)
against `emptySubject`. -/
def c6Props : List Stored := [⟨0, "x".data, "y".data, "u".data, 0, false⟩]

/-- Subject of the C4 witness batch. -/
def c4Subject : SubjectRecord := ⟨"ab".data, "7 a".data, [], []⟩

/-- A complete batch with distinct urls whose scores against `c4Subject` are
45 and 0 — no candidate reaches 50 and the best lands in the good-match
tier. -/
def c4Batch : List CandidateListing :=
  [⟨"zab".data, "7".data, "u1".data⟩, ⟨"xy".data, "8 xy".data, "u2".data⟩]

/-- A complete batch with a duplicated url: the first candidate scores 10 and
the second — with the same url — scores 45, so the best match is the second
candidate but the url lookup of the fallback finds the first row. -/
def c4CexBatch : List CandidateListing :=
  [⟨"xy".data, "q".data, "u1".data⟩, ⟨"zab".data, "7".data, "u1".data⟩]

/-- Forty characters `a`: one side of the half-point similarity pair. -/
def c7s1 : List Char := "aaaaaaaaaaaaaaaaaaaaaaaaaaaaaaaaaaaaaaaa".data

/-- Twenty-three characters `a` then seventeen `b`: at edit distance 17 from
`c7s1`, both strings of length 40, so the exact similarity fraction is the
half point 57.5. -/
def c7s2 : List Char := "aaaaaaaaaaaaaaaaaaaaaaabbbbbbbbbbbbbbbbb".data

/-! Helper lemmas and the claim theorems. -/

theorem levenshtein_nil_left (t : List Char) : levenshtein [] t = t.length := by
  simp [levenshtein]

theorem levenshtein_cons_nil (x : Char) (s : List Char) :
    levenshtein (x :: s) [] = s.length + 1 := by
  simp [levenshtein]

theorem levenshtein_cons_cons (x y : Char) (s t : List Char) :
    levenshtein (x :: s) (y :: t) =
      if x = y then levenshtein s t
      else 1 + Nat.min (levenshtein s t)
        (Nat.min (levenshtein (x :: s) t) (levenshtein s (y :: t))) := by
  rw [levenshtein]

theorem levenshtein_nil_right (s : List Char) : levenshtein s [] = s.length := by
  cases s with
  | nil => simp [levenshtein]
  | cons x s => simp [levenshtein_cons_nil]

theorem levenshtein_self (s : List Char) : levenshtein s s = 0 := by
  induction s with
  | nil => simp [levenshtein_nil_left]
  | cons x s ih => rw [levenshtein_cons_cons, if_pos rfl]; exact ih

theorem levenshtein_le_max : ∀ (s t : List Char),
    levenshtein s t ≤ Nat.max s.length t.length := by
  intro s
  induction s with
  | nil =>
    intro t
    rw [levenshtein_nil_left]
    exact Nat.le_max_right _ _
  | cons x s ihs =>
    intro t
    induction t with
    | nil =>
      rw [levenshtein_cons_nil]
      simp
    | cons y t iht =>
      rw [levenshtein_cons_cons]
      have hmax : Nat.max (x :: s).length (y :: t).length =
          Nat.max s.length t.length + 1 := by
        simp [Nat.succ_max_succ]
      by_cases h : x = y
      · rw [if_pos h, hmax]
        exact Nat.le_succ_of_le (ihs t)
      · rw [if_neg h, hmax]
        have h1 := ihs t
        have h2 := Nat.min_le_left (levenshtein s t)
          (Nat.min (levenshtein (x :: s) t) (levenshtein s (y :: t)))
        calc 1 + Nat.min (levenshtein s t)
              (Nat.min (levenshtein (x :: s) t) (levenshtein s (y :: t)))
            ≤ 1 + levenshtein s t := Nat.add_le_add_left h2 1
          _ ≤ 1 + Nat.max s.length t.length := Nat.add_le_add_left h1 1
          _ = Nat.max s.length t.length + 1 := Nat.add_comm _ _

theorem min_one_add (x y : Nat) : Nat.min (1 + x) (1 + y) = 1 + Nat.min x y := by
  rcases Nat.le_total x y with h | h <;> simp [Nat.min_def, h]

theorem min_shuffle9 (A B C P Q R S U V : Nat) :
    Nat.min (Nat.min A (Nat.min P Q))
      (Nat.min (Nat.min B (Nat.min R S)) (Nat.min C (Nat.min U V))) =
    Nat.min (Nat.min A (Nat.min B C))
      (Nat.min (Nat.min P (Nat.min R U)) (Nat.min Q (Nat.min S V))) := by
  refine Nat.le_antisymm ?_ ?_ <;> simp only [le_min_iff, min_le_iff] <;> omega

theorem levenshtein_snoc_aux (a b : Char) :
    ∀ (n : Nat) (s t : List Char), s.length + t.length ≤ n →
      levenshtein (s ++ [a]) (t ++ [b]) =
        if a = b then levenshtein s t
        else 1 + Nat.min (levenshtein s t)
          (Nat.min (levenshtein (s ++ [a]) t) (levenshtein s (t ++ [b]))) := by
  intro n
  induction n with
  | zero =>
    intro s t hlen
    have hs : s = [] := List.eq_nil_of_length_eq_zero (by omega)
    have ht : t = [] := List.eq_nil_of_length_eq_zero (by omega)
    subst hs; subst ht
    simp only [List.nil_append]
    rw [levenshtein_cons_cons]
  | succ n ihn =>
    intro s t hlen
    cases s with
    | nil =>
      cases t with
      | nil =>
        simp only [List.nil_append]
        rw [levenshtein_cons_cons]
      | cons y t' =>
        have h1 := ihn [] t' (by simp at hlen ⊢; omega)
        simp only [List.nil_append, List.cons_append] at h1 ⊢
        rw [levenshtein_cons_cons a y [] (t' ++ [b])]
        rw [h1]
        rw [levenshtein_cons_cons a y [] t']
        simp only [levenshtein_nil_left, List.length_append, List.length_cons,
          List.length_nil]
        by_cases hay : a = y <;> by_cases hab : a = b <;>
          simp only [hay, hab, if_true, if_false, ite_true, ite_false] <;>
          first
            | rfl
            | (simp only [Nat.min_def]; split_ifs <;> omega)
    | cons x s' =>
      cases t with
      | nil =>
        have h1 := ihn s' [] (by simp at hlen ⊢; omega)
        simp only [List.cons_append, List.nil_append, List.append_nil] at h1 ⊢
        rw [levenshtein_cons_cons x b (s' ++ [a]) []]
        rw [h1]
        rw [levenshtein_cons_cons x b s' []]
        simp only [levenshtein_nil_right, levenshtein_cons_nil,
          List.length_append, List.length_cons, List.length_nil]
        by_cases hxb : x = b <;> by_cases hab : a = b <;>
          simp only [hxb, hab, if_true, if_false, ite_true, ite_false] <;>
          first
            | rfl
            | (simp only [Nat.min_def]; split_ifs <;> omega)
      | cons y t' =>
        have h1 := ihn s' t' (by simp at hlen ⊢; omega)
        have h2 := ihn (x :: s') t' (by simp at hlen ⊢; omega)
        have h3 := ihn s' (y :: t') (by simp at hlen ⊢; omega)
        simp only [List.cons_append] at h2 h3 ⊢
        rw [levenshtein_cons_cons x y (s' ++ [a]) (t' ++ [b])]
        rw [h1, h2, h3]
        rw [levenshtein_cons_cons x y s' t']
        rw [levenshtein_cons_cons x y (s' ++ [a]) t']
        rw [levenshtein_cons_cons x y s' (t' ++ [b])]
        by_cases hxy : x = y <;> by_cases hab : a = b <;>
          simp only [hxy, hab, if_true, if_false, ite_true, ite_false] <;>
          first
            | rfl
            | (simp only [min_one_add]; rw [min_shuffle9])

theorem levenshtein_snoc (a b : Char) (s t : List Char) :
    levenshtein (s ++ [a]) (t ++ [b]) =
      if a = b then levenshtein s t
      else 1 + Nat.min (levenshtein s t)
        (Nat.min (levenshtein (s ++ [a]) t) (levenshtein s (t ++ [b]))) :=
  levenshtein_snoc_aux a b (s.length + t.length) s t (Nat.le_refl _)

theorem cell_snoc (x y : Char) (s1p u : List Char) :
    levCell x y (levenshtein s1p u) (levenshtein (s1p ++ [x]) u)
        (levenshtein s1p (u ++ [y])) =
      levenshtein (s1p ++ [x]) (u ++ [y]) := by
  rw [levenshtein_snoc, levCell]
  by_cases h : x = y
  · simp [h]
  · simp only [h, if_false, ite_false]
    have hmin : ∀ (d l u : Nat),
        Nat.min (d + 1) (Nat.min (l + 1) (u + 1)) = 1 + Nat.min d (Nat.min l u) := by
      intro d l u
      simp only [Nat.min_def]
      split_ifs <;> omega
    exact hmin _ _ _

theorem fillRow_spec (x : Char) :
    ∀ (ys u s1p : List Char),
      levFillRow x ys (rowFrom s1p u ys) (levenshtein s1p u)
          (levenshtein (s1p ++ [x]) u) =
        rowFrom (s1p ++ [x]) u ys := by
  intro ys
  induction ys with
  | nil => intro u s1p; rfl
  | cons y ys ih =>
    intro u s1p
    simp only [rowFrom, levFillRow]
    rw [cell_snoc]
    rw [ih (u ++ [y]) s1p]

theorem nextRow_spec (x : Char) (s2 s1p : List Char) :
    levNextRow x s2 (s1p.length :: rowFrom s1p [] s2) (s1p.length + 1) =
      (s1p ++ [x]).length :: rowFrom (s1p ++ [x]) [] s2 := by
  have hfill := fillRow_spec x s2 [] s1p
  rw [levenshtein_nil_right, levenshtein_nil_right] at hfill
  rw [List.length_append, List.length_cons, List.length_nil] at hfill
  rw [levNextRow]
  rw [List.length_append, List.length_cons, List.length_nil]
  rw [hfill]

theorem foldl_rows (s2 : List Char) :
    ∀ (rest s1p : List Char),
      List.foldl (fun (acc : List Nat × Nat) x =>
          (levNextRow x s2 acc.1 (acc.2 + 1), acc.2 + 1))
        (s1p.length :: rowFrom s1p [] s2, s1p.length) rest =
      ((s1p ++ rest).length :: rowFrom (s1p ++ rest) [] s2,
       (s1p ++ rest).length) := by
  intro rest
  induction rest with
  | nil => intro s1p; simp
  | cons x xs ih =>
    intro s1p
    rw [List.foldl_cons]
    dsimp only
    rw [nextRow_spec]
    rw [show s1p.length + 1 = (s1p ++ [x]).length by simp]
    have h := ih (s1p ++ [x])
    simp only [List.append_assoc, List.cons_append, List.nil_append] at h ⊢
    exact h

theorem getLastD_rowFrom :
    ∀ (ys u s1p : List Char) (d : Nat),
      (levenshtein s1p u :: rowFrom s1p u ys).getLastD d =
        levenshtein s1p (u ++ ys) := by
  intro ys
  induction ys with
  | nil => intro u s1p d; simp [rowFrom]
  | cons y ys ih =>
    intro u s1p d
    simp only [rowFrom]
    rw [List.getLastD_cons]
    have h := ih (u ++ [y]) s1p (levenshtein s1p u)
    simp only [List.append_assoc, List.cons_append, List.nil_append] at h ⊢
    exact h

theorem rowFrom_nil :
    ∀ (ys u : List Char), rowFrom [] u ys = List.range' (u.length + 1) ys.length := by
  intro ys
  induction ys with
  | nil => intro u; simp [rowFrom]
  | cons y ys ih =>
    intro u
    simp only [rowFrom, levenshtein_nil_left]
    rw [ih (u ++ [y])]
    simp [List.range'_succ, List.length_append]

theorem levMatrixDist_eq (s1 s2 : List Char) :
    levMatrixDist s1 s2 = levenshtein s1 s2 := by
  unfold levMatrixDist
  have hinit : List.range (s2.length + 1) =
      (([] : List Char).length :: rowFrom [] [] s2) := by
    rw [List.range_eq_range', List.range'_succ, rowFrom_nil]
    rfl
  have hpair : (List.range (s2.length + 1), (0 : Nat)) =
      ((([] : List Char)).length :: rowFrom [] [] s2, (([] : List Char)).length) := by
    rw [hinit]
    rfl
  rw [hpair]
  rw [foldl_rows s2 s1 []]
  dsimp only
  simp only [List.nil_append]
  rw [show s1.length = levenshtein s1 [] from (levenshtein_nil_right s1).symm]
  rw [getLastD_rowFrom s2 [] s1 0]
  rfl

theorem listMaxBy_cons {α : Type} (f : α → Nat) (c : α) (l : List α) :
    listMaxBy f (c :: l) = Nat.max (f c) (listMaxBy f l) := rfl

theorem le_listMaxBy {α : Type} (f : α → Nat) {l : List α} {c : α} (h : c ∈ l) :
    f c ≤ listMaxBy f l := by
  induction l with
  | nil => cases h
  | cons a l ih =>
    rcases List.mem_cons.mp h with h | h
    · subst h; exact Nat.le_max_left _ _
    · exact Nat.le_trans (ih h) (Nat.le_max_right _ _)

theorem bestStep_snd {α : Type} (f : α → Nat) (acc : Option α × Nat) (c : α) :
    (bestStep f acc c).2 = Nat.max acc.2 (f c) := by
  unfold bestStep
  rcases Nat.lt_or_ge acc.2 (f c) with h | h
  · rw [if_pos h]; exact (Nat.max_eq_right (Nat.le_of_lt h)).symm
  · rw [if_neg (by omega)]; exact (Nat.max_eq_left h).symm

theorem foldl_bestStep_snd {α : Type} (f : α → Nat) :
    ∀ (l : List α) (acc : Option α × Nat),
      (l.foldl (bestStep f) acc).2 = Nat.max acc.2 (listMaxBy f l) := by
  intro l
  induction l with
  | nil => intro acc; simp [listMaxBy]
  | cons c l ih =>
    intro acc
    rw [List.foldl_cons, ih, listMaxBy_cons, bestStep_snd]
    exact Nat.max_assoc _ _ _

theorem foldl_bestStep_keep {α : Type} (f : α → Nat) :
    ∀ (l : List α) (acc : Option α × Nat), listMaxBy f l ≤ acc.2 →
      l.foldl (bestStep f) acc = acc := by
  intro l
  induction l with
  | nil => intro acc _; rfl
  | cons c l ih =>
    intro acc h
    rw [listMaxBy_cons, Nat.max_le] at h
    rw [List.foldl_cons, bestStep, if_neg (by omega)]
    exact ih acc h.2

theorem foldl_bestStep_find {α : Type} (f : α → Nat) :
    ∀ (l : List α) (b0 : Option α) (s0 : Nat), s0 < listMaxBy f l →
      (l.foldl (bestStep f) (b0, s0)).1 =
        l.find? (fun c => decide (f c = listMaxBy f l)) := by
  intro l
  induction l with
  | nil => intro b0 s0 h; simp [listMaxBy] at h
  | cons c l ih =>
    intro b0 s0 h
    rw [listMaxBy_cons] at h ⊢
    by_cases hcl : listMaxBy f l ≤ f c
    · have hmax : Nat.max (f c) (listMaxBy f l) = f c := Nat.max_eq_left hcl
      rw [hmax] at h ⊢
      rw [List.foldl_cons, bestStep, if_pos h]
      rw [foldl_bestStep_keep f l (some c, f c) hcl]
      simp [List.find?]
    · push_neg at hcl
      have hmax : Nat.max (f c) (listMaxBy f l) = listMaxBy f l :=
        Nat.max_eq_right (Nat.le_of_lt hcl)
      rw [hmax] at h ⊢
      have hne : ¬ (f c = listMaxBy f l) := by omega
      rw [List.foldl_cons]
      by_cases hs : s0 < f c
      · rw [bestStep, if_pos hs, ih (some c) (f c) hcl]
        simp [List.find?, hne]
      · rw [bestStep, if_neg hs, ih b0 s0 h]
        simp [List.find?, hne]

theorem foldl_bestStep_none {α : Type} (f : α → Nat) (l : List α)
    (h : listMaxBy f l = 0) :
    l.foldl (bestStep f) (none, 0) = (none, 0) :=
  foldl_bestStep_keep f l (none, 0) (by omega)

/-- Decomposition of the scoring loop: starting from an arbitrary loop state,
the pass appends one stored row per complete candidate, or-accumulates the
confident-match flag, and runs the running-best update over the complete
candidates. -/
theorem bestStep_pair {α : Type} (f : α → Nat) (b : Option α) (s : Nat) (c : α) :
    bestStep f (b, s) c =
      (if s < f c then some c else b, if s < f c then f c else s) := by
  by_cases h : s < f c <;> simp [bestStep, h]

theorem foldl_scanStep (subject : SubjectRecord) :
    ∀ (batch : List CandidateListing) (L : List Stored) (fnd : Bool)
      (b : Option CandidateListing) (s : Nat),
      List.foldl (scanStep subject) ⟨L, fnd, b, s⟩ batch =
        ⟨L ++ storedRows subject L.length batch,
         fnd || anyConfident subject batch,
         ((completeOf batch).foldl (bestStep (scoreOf subject)) (b, s)).1,
         ((completeOf batch).foldl (bestStep (scoreOf subject)) (b, s)).2⟩ := by
  intro batch
  induction batch with
  | nil =>
    intro L fnd b s
    simp [storedRows, anyConfident, completeOf]
  | cons c cs ih =>
    intro L fnd b s
    rw [List.foldl_cons]
    by_cases hc : isCompleteCandidate c
    · have hstep : scanStep subject ⟨L, fnd, b, s⟩ c =
          ⟨L ++ [storedOf subject L.length c],
           fnd || (calculatePropertyMatch subject c).isMatch,
           (bestStep (scoreOf subject) (b, s) c).1,
           (bestStep (scoreOf subject) (b, s) c).2⟩ := by
        rw [bestStep_pair]
        simp [scanStep, hc, storedOf, scoreOf]
      rw [hstep, ih]
      have h1 : storedRows subject L.length (c :: cs) =
          storedOf subject L.length c :: storedRows subject (L.length + 1) cs := by
        simp [storedRows, hc]
      have h2 : completeOf (c :: cs) = c :: completeOf cs := by
        simp [completeOf, List.filter_cons_of_pos, hc]
      have h3 : anyConfident subject (c :: cs) =
          ((calculatePropertyMatch subject c).isMatch || anyConfident subject cs) := by
        rw [anyConfident, h2, List.any_cons]; rfl
      rw [h1, h2, h3]
      simp [List.append_assoc, Bool.or_assoc]
    · have hstep : scanStep subject ⟨L, fnd, b, s⟩ c = ⟨L, fnd, b, s⟩ := by
        simp [scanStep, hc]
      have h1 : storedRows subject L.length (c :: cs) =
          storedRows subject L.length cs := by
        simp [storedRows, hc]
      have h2 : completeOf (c :: cs) = completeOf cs := by
        simp [completeOf, List.filter_cons_of_neg, hc]
      have h3 : anyConfident subject (c :: cs) = anyConfident subject cs := by
        rw [anyConfident, h2]; rfl
      rw [hstep, ih, h1, h2, h3]

/-- The scoring pass in closed form. -/
theorem scanBatch_eq (subject : SubjectRecord) (batch : List CandidateListing) :
    scanBatch subject batch =
      ⟨storedRows subject 0 batch, anyConfident subject batch,
       (bestOf subject batch).1, (bestOf subject batch).2⟩ := by
  have h := foldl_scanStep subject batch [] false none 0
  simpa [scanBatch, bestOf, completeOf] using h

theorem isMatch_eq_decide (s : SubjectRecord) (c : CandidateListing) :
    (calculatePropertyMatch s c).isMatch =
      decide (50 ≤ (calculatePropertyMatch s c).score) := rfl

theorem storedRows_eq_filter (subject : SubjectRecord) :
    ∀ (batch : List CandidateListing) (n : Nat),
      storedRows subject n batch = storedRows subject n (completeOf batch) := by
  intro batch
  induction batch with
  | nil => intro n; rfl
  | cons c cs ih =>
    intro n
    by_cases hc : isCompleteCandidate c
    · have h2 : completeOf (c :: cs) = c :: completeOf cs := by
        simp [completeOf, List.filter_cons_of_pos, hc]
      rw [h2]
      simp only [storedRows, hc, if_pos]
      rw [ih]
    · have h2 : completeOf (c :: cs) = completeOf cs := by
        simp [completeOf, List.filter_cons_of_neg, hc]
      rw [h2]
      simp only [storedRows, hc, if_neg, Bool.false_eq_true, ite_false]
      exact ih n

theorem mem_storedRows (subject : SubjectRecord) :
    ∀ (batch : List CandidateListing) (n : Nat) (p : Stored),
      p ∈ storedRows subject n batch →
      ∃ c ∈ batch, isCompleteCandidate c = true ∧ p.name = c.name ∧
        p.address = c.address ∧ p.url = c.url ∧
        p.matchScore = scoreOf subject c ∧
        p.isSubjectProperty = (calculatePropertyMatch subject c).isMatch := by
  intro batch
  induction batch with
  | nil => intro n p h; simp [storedRows] at h
  | cons c cs ih =>
    intro n p h
    by_cases hc : isCompleteCandidate c
    · rw [storedRows, if_pos hc] at h
      rcases List.mem_cons.mp h with h | h
      · exact ⟨c, List.mem_cons_self c cs, hc, by simp [h, storedOf, scoreOf]⟩
      · obtain ⟨d, hd, rest⟩ := ih (n + 1) p h
        exact ⟨d, List.mem_cons_of_mem c hd, rest⟩
    · rw [storedRows, if_neg hc] at h
      obtain ⟨d, hd, rest⟩ := ih n p h
      exact ⟨d, List.mem_cons_of_mem c hd, rest⟩

theorem exists_storedRows_row (subject : SubjectRecord) :
    ∀ (batch : List CandidateListing) (n : Nat) (c : CandidateListing),
      c ∈ batch → isCompleteCandidate c = true →
      ∃ p ∈ storedRows subject n batch, p.url = c.url ∧
        p.matchScore = scoreOf subject c ∧
        p.isSubjectProperty = (calculatePropertyMatch subject c).isMatch := by
  intro batch
  induction batch with
  | nil => intro n c h; cases h
  | cons a cs ih =>
    intro n c hmem hcomp
    rcases List.mem_cons.mp hmem with h | h
    · subst h
      rw [storedRows, if_pos hcomp]
      exact ⟨storedOf subject n c, List.mem_cons_self _ _, rfl, rfl, rfl⟩
    · by_cases ha : isCompleteCandidate a
      · rw [storedRows, if_pos ha]
        obtain ⟨p, hp, hrest⟩ := ih (n + 1) c h hcomp
        exact ⟨p, List.mem_cons_of_mem _ hp, hrest⟩
      · rw [storedRows, if_neg ha]
        exact ih n c h hcomp

theorem storedRows_ne_nil (subject : SubjectRecord) (n : Nat)
    (batch : List CandidateListing) (hne : batch ≠ [])
    (hc : ∀ c ∈ batch, isCompleteCandidate c = true) :
    storedRows subject n batch ≠ [] := by
  cases batch with
  | nil => exact absurd rfl hne
  | cons c cs =>
    rw [storedRows, if_pos (hc c (List.mem_cons_self c cs))]
    exact List.cons_ne_nil _ _

theorem storedRows_flags_false (subject : SubjectRecord)
    (batch : List CandidateListing)
    (h50 : ∀ c ∈ batch, scoreOf subject c < 50) (n : Nat) :
    ∀ p ∈ storedRows subject n batch, p.isSubjectProperty = false := by
  intro p hp
  obtain ⟨c, hcmem, _, _, _, _, _, hflag⟩ := mem_storedRows subject batch n p hp
  rw [hflag, isMatch_eq_decide]
  have := h50 c hcmem
  simp [scoreOf] at this ⊢
  omega

theorem countFlagged_eq_zero (l : List Stored)
    (h : ∀ p ∈ l, p.isSubjectProperty = false) : countFlagged l = 0 := by
  unfold countFlagged
  rw [List.filter_eq_nil_iff.mpr (by intro p hp; simp [h p hp])]
  rfl

theorem markFirstWithUrl_found (u : List Char) :
    ∀ (l : List Stored), (∃ p ∈ l, p.url = u) → (markFirstWithUrl u l).2 = true := by
  intro l
  induction l with
  | nil => rintro ⟨p, hp, _⟩; cases hp
  | cons q qs ih =>
    rintro ⟨p, hp, hurl⟩
    rw [markFirstWithUrl]
    by_cases hq : q.url = u
    · rw [if_pos hq]
    · rw [if_neg hq]
      rcases List.mem_cons.mp hp with h | h
      · subst h; exact absurd hurl hq
      · exact ih ⟨p, h, hurl⟩

theorem markFirstWithUrl_count (u : List Char) :
    ∀ (l : List Stored), (∀ p ∈ l, p.isSubjectProperty = false) →
      (markFirstWithUrl u l).2 = true →
      countFlagged (markFirstWithUrl u l).1 = 1 := by
  intro l
  induction l with
  | nil => intro _ h; simp [markFirstWithUrl] at h
  | cons q qs ih =>
    intro hflags hfound
    by_cases hq : q.url = u
    · have htail : countFlagged qs = 0 :=
        countFlagged_eq_zero qs (fun p hp => hflags p (List.mem_cons_of_mem q hp))
      simp only [markFirstWithUrl, if_pos hq]
      unfold countFlagged at htail ⊢
      rw [List.filter_cons_of_pos (by simp)]
      simp [htail]
    · have hfound2 : (markFirstWithUrl u qs).2 = true := by
        simpa [markFirstWithUrl, hq] using hfound
      have hq0 := hflags q (List.mem_cons_self q qs)
      have htail := ih (fun x hx => hflags x (List.mem_cons_of_mem q hx)) hfound2
      simp only [markFirstWithUrl, if_neg hq]
      unfold countFlagged at htail ⊢
      rw [List.filter_cons_of_neg (by simp [hq0])]
      exact htail

theorem markFirstWithUrl_flagged_first (u : List Char) :
    ∀ (l : List Stored), (∀ p ∈ l, p.isSubjectProperty = false) →
      ∀ p ∈ (markFirstWithUrl u l).1, p.isSubjectProperty = true →
        ∃ q, l.find? (fun r => decide (r.url = u)) = some q ∧
          p = { q with isSubjectProperty := true } := by
  intro l
  induction l with
  | nil => intro _ p hp; simp [markFirstWithUrl] at hp
  | cons q qs ih =>
    intro hflags p hp hpf
    rw [markFirstWithUrl] at hp
    by_cases hq : q.url = u
    · rw [if_pos hq] at hp
      rcases List.mem_cons.mp hp with h | h
      · exact ⟨q, List.find?_cons_of_pos _ (by simp [hq]), h⟩
      · exact absurd hpf (by rw [hflags p (List.mem_cons_of_mem q h)]; simp)
    · rw [if_neg hq] at hp
      rcases List.mem_cons.mp hp with h | h
      · subst h
        exact absurd hpf (by rw [hflags p (List.mem_cons_self _ _)]; simp)
      · obtain ⟨r, hr, hrest⟩ :=
          ih (fun x hx => hflags x (List.mem_cons_of_mem q hx)) p h hpf
        exact ⟨r, by rw [List.find?_cons_of_neg _ (by simp [hq])]; exact hr, hrest⟩

theorem storedRows_find_url (subject : SubjectRecord) (u : List Char) :
    ∀ (batch : List CandidateListing) (n : Nat),
      (∀ c ∈ batch, isCompleteCandidate c = true) →
      ∀ c, batch.find? (fun d => decide (d.url = u)) = some c →
        ∃ m, (storedRows subject n batch).find? (fun r => decide (r.url = u)) =
          some (storedOf subject m c) := by
  intro batch
  induction batch with
  | nil => intro n _ c h; simp at h
  | cons a cs ih =>
    intro n hcomp c hfind
    have ha := hcomp a (List.mem_cons_self a cs)
    rw [storedRows, if_pos ha]
    by_cases hau : a.url = u
    · rw [List.find?_cons_of_pos _ (by simp [hau])] at hfind
      injection hfind with hac
      subst hac
      exact ⟨n, List.find?_cons_of_pos _ (by simp [storedOf, hau])⟩
    · rw [List.find?_cons_of_neg _ (by simp [hau])] at hfind
      obtain ⟨m, hm⟩ :=
        ih (n + 1) (fun d hd => hcomp d (List.mem_cons_of_mem a hd)) c hfind
      exact ⟨m, by rw [List.find?_cons_of_neg _ (by simp [storedOf, hau])]; exact hm⟩

theorem listMaxBy_attained {α : Type} (f : α → Nat) :
    ∀ (l : List α), 0 < listMaxBy f l → ∃ c ∈ l, f c = listMaxBy f l := by
  intro l
  induction l with
  | nil => intro h; simp [listMaxBy] at h
  | cons c cs ih =>
    intro h
    rw [listMaxBy_cons] at h ⊢
    rcases Nat.le_total (listMaxBy f cs) (f c) with hle | hle
    · exact ⟨c, List.mem_cons_self c cs, (Nat.max_eq_left hle).symm⟩
    · have hmax : Nat.max (f c) (listMaxBy f cs) = listMaxBy f cs := by
        simp [Nat.max_def, hle]
      rw [hmax] at h ⊢
      obtain ⟨d, hd, hfd⟩ := ih h
      exact ⟨d, List.mem_cons_of_mem c hd, hfd⟩

theorem countFlagged_markHead (l : List Stored) (hne : l ≠ [])
    (h : ∀ p ∈ l, p.isSubjectProperty = false) :
    countFlagged (markHead l) = 1 := by
  cases l with
  | nil => exact absurd rfl hne
  | cons q qs =>
    have htail : countFlagged qs = 0 :=
      countFlagged_eq_zero qs (fun p hp => h p (List.mem_cons_of_mem q hp))
    unfold countFlagged at htail ⊢
    rw [markHead, List.filter_cons_of_pos (by simp)]
    simp [htail]

theorem markHead_flagged (l : List Stored)
    (h : ∀ p ∈ l, p.isSubjectProperty = false) :
    ∀ p ∈ markHead l, p.isSubjectProperty = true →
      ∃ q, l.head? = some q ∧ p = { q with isSubjectProperty := true } := by
  intro p hp hpf
  cases l with
  | nil => simp [markHead] at hp
  | cons q qs =>
    rw [markHead] at hp
    rcases List.mem_cons.mp hp with hh | hh
    · exact ⟨q, rfl, hh⟩
    · exact absurd hpf (by rw [h p (List.mem_cons_of_mem q hh)]; simp)

theorem applyFallbacks_found (st : ScanState) (h : st.found = true) :
    applyFallbacks st = st.stored := by
  unfold applyFallbacks
  cases hb : st.best with
  | none => simp [h]
  | some b => simp [h]

theorem applyFallbacks_fallback1 (st : ScanState) (b : CandidateListing)
    (hf : st.found = false) (hb : st.best = some b) (h40 : 40 ≤ st.bestScore)
    (hex : ∃ p ∈ st.stored, p.url = b.url) :
    applyFallbacks st = (markFirstWithUrl b.url st.stored).1 := by
  have hm := markFirstWithUrl_found b.url st.stored hex
  unfold applyFallbacks
  rw [hb]
  simp [hf, h40, hm]

theorem applyFallbacks_fallback2 (st : ScanState) (b : CandidateListing)
    (hf : st.found = false) (hb : st.best = some b) (h40 : st.bestScore < 40)
    (hne : st.stored ≠ []) (hex : ∃ p ∈ st.stored, p.url = b.url) :
    applyFallbacks st = (markFirstWithUrl b.url st.stored).1 := by
  have hm := markFirstWithUrl_found b.url st.stored hex
  have h40x : ¬ 40 ≤ st.bestScore := by omega
  unfold applyFallbacks
  rw [hb]
  simp [hf, h40x, hne, hm]

theorem applyFallbacks_fallback3 (st : ScanState)
    (hf : st.found = false) (hbn : st.best = none) (hne : st.stored ≠ []) :
    applyFallbacks st = markHead st.stored := by
  unfold applyFallbacks
  rw [hbn]
  simp [hf, hne]

theorem markFirstWithUrl_fields (u : List Char) :
    ∀ (l : List Stored), ∀ p ∈ (markFirstWithUrl u l).1, ∃ q ∈ l,
      p.name = q.name ∧ p.address = q.address ∧ p.url = q.url := by
  intro l
  induction l with
  | nil => intro p hp; simp [markFirstWithUrl] at hp
  | cons q qs ih =>
    intro p hp
    by_cases hq : q.url = u
    · rw [markFirstWithUrl, if_pos hq] at hp
      rcases List.mem_cons.mp hp with h | h
      · exact ⟨q, List.mem_cons_self q qs, by simp [h]⟩
      · exact ⟨p, List.mem_cons_of_mem q h, rfl, rfl, rfl⟩
    · rw [markFirstWithUrl, if_neg hq] at hp
      rcases List.mem_cons.mp hp with h | h
      · exact ⟨q, List.mem_cons_self q qs, by simp [h]⟩
      · obtain ⟨r, hr, hrest⟩ := ih p h
        exact ⟨r, List.mem_cons_of_mem q hr, hrest⟩

theorem markHead_fields :
    ∀ (l : List Stored), ∀ p ∈ markHead l, ∃ q ∈ l,
      p.name = q.name ∧ p.address = q.address ∧ p.url = q.url := by
  intro l
  cases l with
  | nil => intro p hp; simp [markHead] at hp
  | cons q qs =>
    intro p hp
    rcases List.mem_cons.mp hp with h | h
    · exact ⟨q, List.mem_cons_self q qs, by simp [h]⟩
    · exact ⟨p, List.mem_cons_of_mem q h, rfl, rfl, rfl⟩

theorem applyFallbacks_mem (st : ScanState) :
    ∀ p ∈ applyFallbacks st, ∃ q ∈ st.stored,
      p.name = q.name ∧ p.address = q.address ∧ p.url = q.url := by
  have base : ∀ p ∈ st.stored, ∃ q ∈ st.stored,
      p.name = q.name ∧ p.address = q.address ∧ p.url = q.url :=
    fun p hp => ⟨p, hp, rfl, rfl, rfl⟩
  have hmark : ∀ (u : List Char) (l : List Stored),
      (∀ p ∈ l, ∃ q ∈ st.stored,
        p.name = q.name ∧ p.address = q.address ∧ p.url = q.url) →
      ∀ p ∈ (markFirstWithUrl u l).1, ∃ q ∈ st.stored,
        p.name = q.name ∧ p.address = q.address ∧ p.url = q.url := by
    intro u l hl p hp
    obtain ⟨r, hr, h1, h2, h3⟩ := markFirstWithUrl_fields u l p hp
    obtain ⟨q, hq, g1, g2, g3⟩ := hl r hr
    exact ⟨q, hq, h1.trans g1, h2.trans g2, h3.trans g3⟩
  have hhead : ∀ (l : List Stored),
      (∀ p ∈ l, ∃ q ∈ st.stored,
        p.name = q.name ∧ p.address = q.address ∧ p.url = q.url) →
      ∀ p ∈ markHead l, ∃ q ∈ st.stored,
        p.name = q.name ∧ p.address = q.address ∧ p.url = q.url := by
    intro l hl p hp
    obtain ⟨r, hr, h1, h2, h3⟩ := markHead_fields l p hp
    obtain ⟨q, hq, g1, g2, g3⟩ := hl r hr
    exact ⟨q, hq, h1.trans g1, h2.trans g2, h3.trans g3⟩
  unfold applyFallbacks
  cases hb : st.best with
  | none =>
    dsimp only
    split_ifs with h1
    · exact hhead _ base
    · exact base
  | some b =>
    dsimp only
    split_ifs with h1 h2 h3 h2 h3 <;>
      first
        | exact base
        | exact hhead _ base
        | exact hmark _ _ base
        | exact hhead _ (hmark _ _ base)
        | exact hmark _ _ (hmark _ _ base)
        | exact hhead _ (hmark _ _ (hmark _ _ base))

theorem isCompleteCandidate_fields (c : CandidateListing)
    (h : isCompleteCandidate c = true) :
    c.name ≠ [] ∧ c.address ≠ [] ∧ c.url ≠ [] := by
  simp [isCompleteCandidate] at h
  refine ⟨?_, ?_, ?_⟩ <;> intro hn <;> simp [hn] at h

theorem countFlagged_pos (l : List Stored) (p : Stored) (hp : p ∈ l)
    (hf : p.isSubjectProperty = true) : 1 ≤ countFlagged l := by
  unfold countFlagged
  have hmem : p ∈ l.filter (fun q => q.isSubjectProperty) :=
    List.mem_filter.mpr ⟨hp, hf⟩
  exact List.length_pos.mpr (List.ne_nil_of_mem hmem)

/-- C1, counterexample: on a non-empty batch in which two candidates both
score 90 (at or above the 50 threshold), the resolution pass marks both of
them as the subject property, so it is not the case that exactly one candidate
has `isSubjectProperty = true`, and the second qualifying candidate does not
remain a competitor. -/
theorem c1_counterexample :
    countFlagged (resolveBatch c1Subject c1Batch) = 2 ∧
    (resolveBatch c1Subject c1Batch).map (fun p => p.matchScore) = [90, 90] := by
  decide

/-- C2, counterexample: with empty name and empty address on both sides the
match score is not 0 — the street-number component's missing-data branch
awards 10 points. -/
theorem c2_counterexample :
    (calculatePropertyMatch emptySubject emptyCandidate).score ≠ 0 := by
  decide

/-- C2, amended: with empty name and empty address on both sides the scorer
(total on all inputs, so it cannot throw) produces a `MatchResult` whose score
is 10 — the neutral credit of the street-number component's missing-data
branch — and which is not a match. -/
theorem c2_amended_empty_inputs :
    (calculatePropertyMatch emptySubject emptyCandidate).score = 10 ∧
    (calculatePropertyMatch emptySubject emptyCandidate).isMatch = false := by
  decide

/-- C3, counterexample: for a subject with neither city nor state the claimed
denominator of 90 would give `round(10 * 100 / 90) = 11` on the empty pair,
but the code returns 10 — the city/state component still contributes its 10
points to the denominator. -/
theorem c3_counterexample :
    (calculatePropertyMatch emptySubject emptyCandidate).score ≠
      jsRound ((calculatePropertyMatch emptySubject emptyCandidate).totalScore * 100) 90 := by
  decide

/-- C3, amended: every `maxPossibleScore +=` of the source is unconditional,
so for every subject/candidate pair the denominator is 100 — also when the
subject has neither city nor state — and the final score equals
`round(totalScore / 100 * 100) = totalScore`. -/
theorem c3_amended_denominator_always_100 (s : SubjectRecord) (c : CandidateListing) :
    (calculatePropertyMatch s c).maxPossibleScore = 100 ∧
    (calculatePropertyMatch s c).score = (calculatePropertyMatch s c).totalScore := by
  constructor
  · rfl
  · simp only [calculatePropertyMatch, jsRound]
    rw [if_pos (by norm_num : (0 : Nat) < 30 + 25 + 20 + 15 + 10)]
    omega

/-- C5, code bug: requesting id 1 as the new subject returns a 200 success
response but leaves the batch unchanged — row 0 is still the only flagged
subject and the requested row 1 is not marked (the handler only logs; the
source comments that the storage update "would need to be added"). -/
theorem c5_set_subject_performs_no_mutation :
    setSubjectEndpoint c5Props 1 = ⟨200, c5Props⟩ ∧
    ((setSubjectEndpoint c5Props 1).properties.filter
      (fun p => p.isSubjectProperty)).map (fun p => p.id) = [0] := by
  decide

/-- C6, counterexample: a non-empty batch with no flagged subject whose single
candidate scores 10 (strictly between 0 and 40): the claimed forced-best
transition would repair it, but the sync lookup selects nothing — its fuzzy
fallback only fires at scores of at least 40. -/
theorem c6_counterexample :
    (∀ p ∈ c6Props, p.isSubjectProperty = false) ∧ c6Props ≠ [] ∧
    (calculatePropertyMatch emptySubject
      (candOf ⟨0, "x".data, "y".data, "u".data, 0, false⟩)).score = 10 ∧
    (syncFindSubject emptySubject c6Props).selected = none ∧
    (syncFindSubject emptySubject c6Props).fallbackUsed = false := by
  decide

/-- C8: the address normalizer turns "1234 Northeast Main Boulevard" into
exactly "1234 ne main blvd" — "northeast" becomes "ne" (the single-word
replacements listed earlier cannot fire inside it because of the word-boundary
anchors) and "boulevard" becomes "blvd". -/
theorem c8_normalizeAddress_multiword_directional :
    normalizeAddress "1234 Northeast Main Boulevard".data = "1234 ne main blvd".data := by
  decide

/-- C9, code bug: on "222 S 15th St, Omaha, NE 68102" the street-name
extractor returns "s 15th st omaha ne 68102" — the normalizer has already
deleted every comma, so the split at the first comma is a no-op and city,
state and zip are kept, contradicting the intended "just the street name". -/
theorem c9_extractStreetName_keeps_city_state_zip :
    extractStreetName "222 S 15th St, Omaha, NE 68102".data =
      "s 15th st omaha ne 68102".data := by
  decide

/-- C10: a discovered candidate with a missing/empty name, address or url is
skipped entirely — resolution of any batch gives exactly the same persisted
result as resolution of its complete candidates only (so such a candidate is
never scored, never persisted and never chosen by any fallback tier, and the
emergency tier's "first property" is the first stored complete candidate), and
every persisted row carries a non-empty name, address and url. -/
theorem c10_incomplete_candidates_skipped (subject : SubjectRecord)
    (batch : List CandidateListing) :
    resolveBatch subject batch =
      resolveBatch subject (batch.filter (fun c => isCompleteCandidate c)) ∧
    ∀ p ∈ resolveBatch subject batch,
      p.name ≠ [] ∧ p.address ≠ [] ∧ p.url ≠ [] := by
  have hidem : completeOf (completeOf batch) = completeOf batch :=
    List.filter_eq_self.mpr (fun c hc => List.of_mem_filter hc)
  constructor
  · have hscan : scanBatch subject batch = scanBatch subject (completeOf batch) := by
      rw [scanBatch_eq, scanBatch_eq]
      have h1 : storedRows subject 0 batch = storedRows subject 0 (completeOf batch) :=
        storedRows_eq_filter subject batch 0
      have h2 : anyConfident subject (completeOf batch) = anyConfident subject batch := by
        unfold anyConfident; rw [hidem]
      have h3 : bestOf subject (completeOf batch) = bestOf subject batch := by
        unfold bestOf; rw [hidem]
      rw [h1, h2, h3]
    show applyFallbacks _ = applyFallbacks _
    rw [hscan]
    rfl
  · intro p hp
    obtain ⟨q, hq, h1, h2, h3⟩ := applyFallbacks_mem (scanBatch subject batch) p hp
    rw [scanBatch_eq] at hq
    obtain ⟨c, _, hcomp, g1, g2, g3, _, _⟩ := mem_storedRows subject batch 0 q hq
    obtain ⟨f1, f2, f3⟩ := isCompleteCandidate_fields c hcomp
    rw [h1, h2, h3, g1, g2, g3]
    exact ⟨f1, f2, f3⟩

/-- C10, witness: the batch with an incomplete first candidate resolves
exactly like its complete part, and its one persisted row (the stored version
of the complete candidate, which the emergency path would also pick) has
non-empty fields. -/
theorem c10_witness :
    (resolveBatch c1Subject
        [⟨[], "x".data, "u0".data⟩, ⟨"duo".data, "222 main st".data, "u1".data⟩] =
      resolveBatch c1Subject
        (List.filter (fun c => isCompleteCandidate c)
          [⟨[], "x".data, "u0".data⟩, ⟨"duo".data, "222 main st".data, "u1".data⟩])) ∧
    ((⟨0, "duo".data, "222 main st".data, "u1".data, 90, true⟩ : Stored).name ≠ [] ∧
     (⟨0, "duo".data, "222 main st".data, "u1".data, 90, true⟩ : Stored).address ≠ [] ∧
     (⟨0, "duo".data, "222 main st".data, "u1".data, 90, true⟩ : Stored).url ≠ []) :=
  ⟨(c10_incomplete_candidates_skipped c1Subject
      [⟨[], "x".data, "u0".data⟩, ⟨"duo".data, "222 main st".data, "u1".data⟩]).1,
   (c10_incomplete_candidates_skipped c1Subject
      [⟨[], "x".data, "u0".data⟩, ⟨"duo".data, "222 main st".data, "u1".data⟩]).2
     ⟨0, "duo".data, "222 main st".data, "u1".data, 90, true⟩ (by decide)⟩

/-- C1, amended: when at least one candidate of an all-complete batch reaches
the 50 threshold, no fallback fires and the persisted batch is exactly the
scored rows — every candidate scoring at least 50 is marked as subject (not
only the first), so at least one row is flagged, and the exactly-one invariant
holds only when exactly one candidate reaches the threshold. -/
theorem c1_amended_all_confident_marked (subject : SubjectRecord)
    (batch : List CandidateListing)
    (hc : ∀ c ∈ batch, isCompleteCandidate c = true)
    (hq : ∃ c ∈ batch, 50 ≤ scoreOf subject c) :
    resolveBatch subject batch = storedRows subject 0 batch ∧
    (∀ p ∈ resolveBatch subject batch,
      p.isSubjectProperty = decide (50 ≤ p.matchScore)) ∧
    1 ≤ countFlagged (resolveBatch subject batch) := by
  have hfilter : completeOf batch = batch :=
    List.filter_eq_self.mpr (fun c hcm => hc c hcm)
  have hfound : anyConfident subject batch = true := by
    unfold anyConfident
    rw [hfilter, List.any_eq_true]
    obtain ⟨c, hcm, h50⟩ := hq
    refine ⟨c, hcm, ?_⟩
    rw [isMatch_eq_decide]
    simpa [scoreOf] using h50
  have hres : resolveBatch subject batch = storedRows subject 0 batch := by
    show applyFallbacks _ = _
    rw [scanBatch_eq]
    exact applyFallbacks_found _ hfound
  refine ⟨hres, ?_, ?_⟩
  · intro p hp
    rw [hres] at hp
    obtain ⟨c, _, _, _, _, _, hscore, hflag⟩ := mem_storedRows subject batch 0 p hp
    rw [hflag, hscore, isMatch_eq_decide]
    rfl
  · obtain ⟨c, hcm, h50⟩ := hq
    obtain ⟨p, hpmem, _, _, hpflag⟩ :=
      exists_storedRows_row subject batch 0 c hcm (hc c hcm)
    rw [hres]
    refine countFlagged_pos _ p hpmem ?_
    rw [hpflag, isMatch_eq_decide]
    simpa [scoreOf] using h50

/-- C1, amended claim witness: the two-candidate batch in which both score 90
satisfies the completeness and some-confident-match hypotheses, and the
amended conclusions hold there. -/
theorem c1_witness :
    resolveBatch c1Subject c1Batch = storedRows c1Subject 0 c1Batch ∧
    (∀ p ∈ resolveBatch c1Subject c1Batch,
      p.isSubjectProperty = decide (50 ≤ p.matchScore)) ∧
    1 ≤ countFlagged (resolveBatch c1Subject c1Batch) :=
  c1_amended_all_confident_marked c1Subject c1Batch (by decide)
    ⟨⟨"duo".data, "222 main st".data, "u1".data⟩, by decide, by decide⟩

/-- C4, amended: on a non-empty all-complete batch in which no candidate
reaches the 50 threshold, exactly one stored row is marked; with `bestMatch`
the running maximum in input order (ties keep the earliest, i.e. the first
candidate whose score equals the batch maximum), the good-match tier (best
score ≥ 40) and the forced-best tier (best score strictly between 0 and 40)
mark the first stored row whose url equals the best candidate's url — the
best candidate itself exactly when no earlier candidate shares its url — and
when every score is 0 the first candidate of the batch is marked
unconditionally (first-property emergency tier). -/
theorem c4_amended_fallback_ladder (subject : SubjectRecord)
    (batch : List CandidateListing)
    (hne : batch ≠ [])
    (hc : ∀ c ∈ batch, isCompleteCandidate c = true)
    (h50 : ∀ c ∈ batch, scoreOf subject c < 50) :
    countFlagged (resolveBatch subject batch) = 1 ∧
    (40 ≤ listMaxBy (scoreOf subject) batch →
      ∃ b, batch.find?
          (fun c => decide (scoreOf subject c = listMaxBy (scoreOf subject) batch)) =
          some b ∧
        ∃ q, batch.find? (fun d => decide (d.url = b.url)) = some q ∧
          ∀ p ∈ resolveBatch subject batch, p.isSubjectProperty = true →
            p.url = b.url ∧ p.name = q.name ∧ p.address = q.address ∧
              p.matchScore = scoreOf subject q) ∧
    (0 < listMaxBy (scoreOf subject) batch → listMaxBy (scoreOf subject) batch < 40 →
      ∃ b, batch.find?
          (fun c => decide (scoreOf subject c = listMaxBy (scoreOf subject) batch)) =
          some b ∧
        ∃ q, batch.find? (fun d => decide (d.url = b.url)) = some q ∧
          ∀ p ∈ resolveBatch subject batch, p.isSubjectProperty = true →
            p.url = b.url ∧ p.name = q.name ∧ p.address = q.address ∧
              p.matchScore = scoreOf subject q) ∧
    (listMaxBy (scoreOf subject) batch = 0 →
      ∀ p ∈ resolveBatch subject batch, p.isSubjectProperty = true →
        p.id = 0 ∧ batch.head? = some ⟨p.name, p.address, p.url⟩) := by
  have hfilter : completeOf batch = batch :=
    List.filter_eq_self.mpr (fun c hcm => hc c hcm)
  have hany : anyConfident subject batch = false := by
    unfold anyConfident
    rw [hfilter, List.any_eq_false]
    intro c hcm
    rw [isMatch_eq_decide]
    have := h50 c hcm
    simp only [scoreOf] at this
    simp only [decide_eq_false_iff_not, decide_eq_true_eq, Nat.not_le]
    omega
  have hflags := storedRows_flags_false subject batch h50 0
  have hstne := storedRows_ne_nil subject 0 batch hne hc
  have hsnd : (bestOf subject batch).2 = listMaxBy (scoreOf subject) batch := by
    unfold bestOf
    rw [hfilter, foldl_bestStep_snd]
    exact Nat.zero_max _
  by_cases hM0 : listMaxBy (scoreOf subject) batch = 0
  · have hbn : (bestOf subject batch).1 = none := by
      unfold bestOf
      rw [hfilter, foldl_bestStep_none (scoreOf subject) batch hM0]
    have hres : resolveBatch subject batch = markHead (storedRows subject 0 batch) := by
      show applyFallbacks _ = _
      rw [scanBatch_eq]
      exact applyFallbacks_fallback3 _ hany hbn hstne
    refine ⟨?_, ?_, ?_, ?_⟩
    · rw [hres]; exact countFlagged_markHead _ hstne hflags
    · intro h40; omega
    · intro hpos _; omega
    · intro _ p hp hpf
      rw [hres] at hp
      obtain ⟨q, hqh, hpq⟩ := markHead_flagged _ hflags p hp hpf
      cases batch with
      | nil => exact absurd rfl hne
      | cons c0 rest =>
        have hcomp0 := hc c0 (List.mem_cons_self _ _)
        rw [storedRows, if_pos hcomp0] at hqh
        simp only [List.head?_cons, Option.some.injEq] at hqh
        subst hqh
        constructor
        · rw [hpq]; rfl
        · rw [hpq]; rfl
  · have hMpos : 0 < listMaxBy (scoreOf subject) batch := Nat.pos_of_ne_zero hM0
    have hfind := foldl_bestStep_find (scoreOf subject) batch none 0 hMpos
    obtain ⟨bc, hbc, hbcM⟩ := listMaxBy_attained (scoreOf subject) batch hMpos
    obtain ⟨b, hb⟩ : ∃ b, batch.find?
        (fun c => decide (scoreOf subject c = listMaxBy (scoreOf subject) batch)) =
        some b := by
      have hsome : (batch.find?
          (fun c => decide (scoreOf subject c =
            listMaxBy (scoreOf subject) batch))).isSome :=
        List.find?_isSome.mpr ⟨bc, hbc, by simp [hbcM]⟩
      exact Option.isSome_iff_exists.mp hsome
    have hbmem : b ∈ batch := List.mem_of_find?_eq_some hb
    have hbscore : scoreOf subject b = listMaxBy (scoreOf subject) batch := by
      have := List.find?_some hb
      simpa using this
    have hbest1 : (bestOf subject batch).1 = some b := by
      unfold bestOf
      rw [hfilter, hfind, hb]
    obtain ⟨prow, hprow, hprowurl, _, _⟩ :=
      exists_storedRows_row subject batch 0 b hbmem (hc b hbmem)
    have hex : ∃ p ∈ storedRows subject 0 batch, p.url = b.url :=
      ⟨prow, hprow, hprowurl⟩
    obtain ⟨q, hqfind⟩ : ∃ q, batch.find? (fun d => decide (d.url = b.url)) = some q := by
      have hsome : (batch.find? (fun d => decide (d.url = b.url))).isSome :=
        List.find?_isSome.mpr ⟨b, hbmem, by simp⟩
      exact Option.isSome_iff_exists.mp hsome
    have hqurl : q.url = b.url := by
      have := List.find?_some hqfind
      simpa using this
    obtain ⟨m, hmfind⟩ := storedRows_find_url subject b.url batch 0 hc q hqfind
    have hconc : ∀ p ∈ (markFirstWithUrl b.url (storedRows subject 0 batch)).1,
        p.isSubjectProperty = true →
        p.url = b.url ∧ p.name = q.name ∧ p.address = q.address ∧
          p.matchScore = scoreOf subject q := by
      intro p hp hpf
      obtain ⟨r, hrfind, hpr⟩ :=
        markFirstWithUrl_flagged_first b.url _ hflags p hp hpf
      rw [hmfind] at hrfind
      injection hrfind with hr
      subst hr
      subst hpr
      exact ⟨hqurl, rfl, rfl, rfl⟩
    have hcount1 : countFlagged (markFirstWithUrl b.url (storedRows subject 0 batch)).1 = 1 :=
      markFirstWithUrl_count b.url _ hflags (markFirstWithUrl_found b.url _ hex)
    by_cases h40 : 40 ≤ listMaxBy (scoreOf subject) batch
    · have hres : resolveBatch subject batch =
          (markFirstWithUrl b.url (storedRows subject 0 batch)).1 := by
        show applyFallbacks _ = _
        rw [scanBatch_eq]
        refine applyFallbacks_fallback1 _ b hany hbest1 ?_ hex
        show 40 ≤ (bestOf subject batch).2
        rw [hsnd]; exact h40
      refine ⟨by rw [hres]; exact hcount1, ?_, ?_, ?_⟩
      · intro _
        exact ⟨b, hb, q, hqfind, by rw [hres]; exact hconc⟩
      · intro _ hlt; omega
      · intro h0; exact absurd h0 hM0
    · push_neg at h40
      have hres : resolveBatch subject batch =
          (markFirstWithUrl b.url (storedRows subject 0 batch)).1 := by
        show applyFallbacks _ = _
        rw [scanBatch_eq]
        refine applyFallbacks_fallback2 _ b hany hbest1 ?_ hstne hex
        show (bestOf subject batch).2 < 40
        rw [hsnd]; exact h40
      refine ⟨by rw [hres]; exact hcount1, ?_, ?_, ?_⟩
      · intro hge; omega
      · intro _ _
        exact ⟨b, hb, q, hqfind, by rw [hres]; exact hconc⟩
      · intro h0; exact absurd h0 hM0

theorem foldl_syncStep (subject : SubjectRecord) :
    ∀ (props : List Stored) (acc1 : Option Stored × Nat)
      (A : List (List Char × Nat)),
      props.foldl (syncStep subject) (acc1, A) =
        (props.foldl (bestStep (syncScore subject)) acc1,
         A ++ props.map (fun p => (p.name, syncScore subject p))) := by
  intro props
  induction props with
  | nil => intro acc1 A; simp
  | cons p ps ih =>
    intro acc1 A
    rw [List.foldl_cons, List.foldl_cons]
    have hstep : syncStep subject (acc1, A) p =
        (bestStep (syncScore subject) acc1 p,
         A ++ [(p.name, syncScore subject p)]) := rfl
    rw [hstep, ih]
    simp [List.append_assoc]

/-- C6, amended: when no row of a non-empty batch is flagged as subject, the
sync lookup re-runs only the good-match tier of the cascade: it scores every
row (reporting all of them in `searchAttempts`); if the best score reaches 40
the earliest best row is selected with `fallbackUsed = true`, and otherwise no
repair happens — nothing is selected and no fallback is reported, so the
forced-best and first-property tiers are never applied. -/
theorem c6_amended_sync_good_match_only (subject : SubjectRecord)
    (props : List Stored)
    (hnone : ∀ p ∈ props, p.isSubjectProperty = false) (hne : props ≠ []) :
    (syncFindSubject subject props).searchAttempts =
      props.map (fun p => (p.name, syncScore subject p)) ∧
    (40 ≤ listMaxBy (syncScore subject) props →
      (syncFindSubject subject props).fallbackUsed = true ∧
      (syncFindSubject subject props).selected =
        props.find? (fun p =>
          decide (syncScore subject p = listMaxBy (syncScore subject) props))) ∧
    (listMaxBy (syncScore subject) props < 40 →
      (syncFindSubject subject props).selected = none ∧
      (syncFindSubject subject props).fallbackUsed = false) := by
  have hfind0 : props.find? (fun p => p.isSubjectProperty) = none :=
    List.find?_eq_none.mpr (fun p hp => by simp [hnone p hp])
  have hsnd : (props.foldl (bestStep (syncScore subject))
      ((none : Option Stored), 0)).2 = listMaxBy (syncScore subject) props := by
    rw [foldl_bestStep_snd]
    exact Nat.zero_max _
  by_cases h40 : 40 ≤ listMaxBy (syncScore subject) props
  · have hMpos : 0 < listMaxBy (syncScore subject) props := by omega
    have hfst := foldl_bestStep_find (syncScore subject) props none 0 hMpos
    obtain ⟨bc, hbc, hbcM⟩ := listMaxBy_attained (syncScore subject) props hMpos
    obtain ⟨b, hb⟩ : ∃ b, props.find? (fun p =>
        decide (syncScore subject p = listMaxBy (syncScore subject) props)) =
        some b :=
      Option.isSome_iff_exists.mp
        (List.find?_isSome.mpr ⟨bc, hbc, by simp [hbcM]⟩)
    have hres : syncFindSubject subject props =
        ⟨some b, true, props.map (fun p => (p.name, syncScore subject p))⟩ := by
      unfold syncFindSubject
      rw [hfind0, foldl_syncStep]
      dsimp only
      rw [if_pos hne, hfst, hb]
      dsimp only
      rw [if_pos (by rw [hsnd]; exact h40)]
      simp
    rw [hres]
    exact ⟨rfl, fun _ => ⟨rfl, hb.symm⟩, fun hlt => by omega⟩
  · push_neg at h40
    by_cases hM0 : listMaxBy (syncScore subject) props = 0
    · have hbn := foldl_bestStep_none (syncScore subject) props hM0
      have hres : syncFindSubject subject props =
          ⟨none, false, props.map (fun p => (p.name, syncScore subject p))⟩ := by
        unfold syncFindSubject
        rw [hfind0, foldl_syncStep]
        dsimp only
        rw [if_pos hne, hbn]
        simp
      rw [hres]
      exact ⟨rfl, fun hge => by omega, fun _ => ⟨rfl, rfl⟩⟩
    · have hMpos : 0 < listMaxBy (syncScore subject) props :=
        Nat.pos_of_ne_zero hM0
      have hfst := foldl_bestStep_find (syncScore subject) props none 0 hMpos
      obtain ⟨bc, hbc, hbcM⟩ := listMaxBy_attained (syncScore subject) props hMpos
      obtain ⟨b, hb⟩ : ∃ b, props.find? (fun p =>
          decide (syncScore subject p = listMaxBy (syncScore subject) props)) =
          some b :=
        Option.isSome_iff_exists.mp
          (List.find?_isSome.mpr ⟨bc, hbc, by simp [hbcM]⟩)
      have hres : syncFindSubject subject props =
          ⟨none, false, props.map (fun p => (p.name, syncScore subject p))⟩ := by
        unfold syncFindSubject
        rw [hfind0, foldl_syncStep]
        dsimp only
        rw [if_pos hne, hfst, hb]
        dsimp only
        rw [if_neg (by rw [hsnd]; omega)]
        simp
      rw [hres]
      exact ⟨rfl, fun hge => by omega, fun _ => ⟨rfl, rfl⟩⟩

/-- C6, amended claim witness: a non-empty unflagged batch whose best sync
score is 45 (reached by the second row). -/
theorem c6_witness :
    (syncFindSubject c4Subject
        [⟨0, "xy".data, "8 xy".data, "u2".data, 0, false⟩,
         ⟨1, "zab".data, "7".data, "u1".data, 45, false⟩]).searchAttempts =
      List.map (fun p => (p.name, syncScore c4Subject p))
        [⟨0, "xy".data, "8 xy".data, "u2".data, 0, false⟩,
         ⟨1, "zab".data, "7".data, "u1".data, 45, false⟩] ∧
    (40 ≤ listMaxBy (syncScore c4Subject)
        [⟨0, "xy".data, "8 xy".data, "u2".data, 0, false⟩,
         ⟨1, "zab".data, "7".data, "u1".data, 45, false⟩] →
      (syncFindSubject c4Subject
        [⟨0, "xy".data, "8 xy".data, "u2".data, 0, false⟩,
         ⟨1, "zab".data, "7".data, "u1".data, 45, false⟩]).fallbackUsed = true ∧
      (syncFindSubject c4Subject
        [⟨0, "xy".data, "8 xy".data, "u2".data, 0, false⟩,
         ⟨1, "zab".data, "7".data, "u1".data, 45, false⟩]).selected =
        List.find? (fun p =>
          decide (syncScore c4Subject p = listMaxBy (syncScore c4Subject)
            [⟨0, "xy".data, "8 xy".data, "u2".data, 0, false⟩,
             ⟨1, "zab".data, "7".data, "u1".data, 45, false⟩]))
          [⟨0, "xy".data, "8 xy".data, "u2".data, 0, false⟩,
           ⟨1, "zab".data, "7".data, "u1".data, 45, false⟩]) ∧
    (listMaxBy (syncScore c4Subject)
        [⟨0, "xy".data, "8 xy".data, "u2".data, 0, false⟩,
         ⟨1, "zab".data, "7".data, "u1".data, 45, false⟩] < 40 →
      (syncFindSubject c4Subject
        [⟨0, "xy".data, "8 xy".data, "u2".data, 0, false⟩,
         ⟨1, "zab".data, "7".data, "u1".data, 45, false⟩]).selected = none ∧
      (syncFindSubject c4Subject
        [⟨0, "xy".data, "8 xy".data, "u2".data, 0, false⟩,
         ⟨1, "zab".data, "7".data, "u1".data, 45, false⟩]).fallbackUsed = false) :=
  c6_amended_sync_good_match_only c4Subject
    [⟨0, "xy".data, "8 xy".data, "u2".data, 0, false⟩,
     ⟨1, "zab".data, "7".data, "u1".data, 45, false⟩]
    (by decide) (by decide)

/-- C4, counterexample: on `c4CexBatch` every score is below 50 and the best
score is 45, reached by the second candidate, so the claimed good-match tier
fires and the claim says that candidate is marked; but the fallback re-finds
the candidate by url, the two candidates share their url, and so the marked
row is the first one — carrying score 10 — while the best-scoring row stays
unmarked. -/
theorem c4_counterexample :
    (∀ c ∈ c4CexBatch, isCompleteCandidate c = true) ∧
    (∀ c ∈ c4CexBatch, scoreOf c4Subject c < 50) ∧
    listMaxBy (scoreOf c4Subject) c4CexBatch = 45 ∧
    scoreOf c4Subject ⟨"zab".data, "7".data, "u1".data⟩ = 45 ∧
    (resolveBatch c4Subject c4CexBatch).map
      (fun p => (p.matchScore, p.isSubjectProperty)) = [(10, true), (45, false)] := by
  decide

/-- C4, witness: the amended fallback-ladder theorem applied to the concrete
batch whose best score is 45, with every hypothesis discharged. -/
theorem c4_witness :
    countFlagged (resolveBatch c4Subject c4Batch) = 1 ∧
    (40 ≤ listMaxBy (scoreOf c4Subject) c4Batch →
      ∃ b, c4Batch.find?
          (fun c => decide (scoreOf c4Subject c = listMaxBy (scoreOf c4Subject) c4Batch)) =
          some b ∧
        ∃ q, c4Batch.find? (fun d => decide (d.url = b.url)) = some q ∧
          ∀ p ∈ resolveBatch c4Subject c4Batch, p.isSubjectProperty = true →
            p.url = b.url ∧ p.name = q.name ∧ p.address = q.address ∧
              p.matchScore = scoreOf c4Subject q) ∧
    (0 < listMaxBy (scoreOf c4Subject) c4Batch →
        listMaxBy (scoreOf c4Subject) c4Batch < 40 →
      ∃ b, c4Batch.find?
          (fun c => decide (scoreOf c4Subject c = listMaxBy (scoreOf c4Subject) c4Batch)) =
          some b ∧
        ∃ q, c4Batch.find? (fun d => decide (d.url = b.url)) = some q ∧
          ∀ p ∈ resolveBatch c4Subject c4Batch, p.isSubjectProperty = true →
            p.url = b.url ∧ p.name = q.name ∧ p.address = q.address ∧
              p.matchScore = scoreOf c4Subject q) ∧
    (listMaxBy (scoreOf c4Subject) c4Batch = 0 →
      ∀ p ∈ resolveBatch c4Subject c4Batch, p.isSubjectProperty = true →
        p.id = 0 ∧ c4Batch.head? = some ⟨p.name, p.address, p.url⟩) :=
  c4_amended_fallback_ladder c4Subject c4Batch (by decide) (by decide) (by decide)

theorem jsRound_hundred (m : Nat) (hm : 0 < m) : jsRound (100 * m) m = 100 := by
  unfold jsRound
  have h : 2 * (100 * m) + m = m + 2 * m * 100 := by ring
  rw [h, Nat.add_mul_div_left _ _ (by omega : 0 < 2 * m),
    Nat.div_eq_of_lt (by omega)]

theorem jsRound_le_hundred (num m : Nat) (hm : 0 < m) (h : num ≤ 100 * m) :
    jsRound num m ≤ 100 := by
  unfold jsRound
  have h1 : 2 * num + m ≤ m + 2 * m * 100 := by omega
  calc (2 * num + m) / (2 * m) ≤ (m + 2 * m * 100) / (2 * m) :=
        Nat.div_le_div_right h1
    _ = m / (2 * m) + 100 := Nat.add_mul_div_left _ _ (by omega)
    _ = 100 := by rw [Nat.div_eq_of_lt (by omega)]

theorem natRoundHalfEven_le (num den C : Nat) (hden : 0 < den)
    (h : num ≤ C * den) : natRoundHalfEven num den ≤ C := by
  have hd := Nat.div_add_mod num den
  have hr : num % den < den := Nat.mod_lt num hden
  have hn : num / den ≤ C := by
    have h2 := Nat.div_le_div_right (c := den) h
    rwa [Nat.mul_div_cancel _ hden] at h2
  have hC : C * den = den * C := Nat.mul_comm C den
  have hmul : den * (num / den) ≤ den * C := Nat.mul_le_mul_left den hn
  unfold natRoundHalfEven
  split_ifs with h1 h2 h3
  · exact hn
  · by_contra hc
    push_neg at hc
    have heq : num / den = C := by omega
    rw [heq] at hd
    omega
  · exact hn
  · by_contra hc
    push_neg at hc
    have heq : num / den = C := by omega
    rw [heq] at hd
    omega

theorem natRoundHalfEven_mul (k den : Nat) (hden : 0 < den) :
    natRoundHalfEven (k * den) den = k := by
  unfold natRoundHalfEven
  rw [Nat.mul_mod_left, Nat.mul_div_cancel _ hden, if_pos (by omega)]

theorem fp64_le (num den C : Nat) (hden : 0 < den) (h : num ≤ C * den) :
    (fp64 num den).1 ≤ C * 2 ^ (fp64 num den).2 := by
  unfold fp64
  split_ifs with h0
  · simp
  · dsimp only
    apply natRoundHalfEven_le _ _ _ hden
    calc num * 2 ^ fpScaleExp num den 1200 0
        ≤ (C * den) * 2 ^ fpScaleExp num den 1200 0 := Nat.mul_le_mul_right _ h
      _ = C * 2 ^ fpScaleExp num den 1200 0 * den := by ring

theorem jsSimilarityRound_le_hundred (diff m : Nat) (hm : 0 < m) (h : diff ≤ m) :
    jsSimilarityRound diff m ≤ 100 := by
  unfold jsSimilarityRound
  dsimp only
  have h1 : (fp64 diff m).1 ≤ 1 * 2 ^ (fp64 diff m).2 :=
    fp64_le diff m 1 hm (by omega)
  have hp2 : 0 < 2 ^ (fp64 diff m).2 := pow_pos (by omega) _
  have h2 : (fp64 (100 * (fp64 diff m).1) (2 ^ (fp64 diff m).2)).1 ≤
      100 * 2 ^ (fp64 (100 * (fp64 diff m).1) (2 ^ (fp64 diff m).2)).2 :=
    fp64_le _ _ 100 hp2 (by omega)
  exact jsRound_le_hundred _ _ (pow_pos (by omega) _) h2

theorem jsSimilarityRound_self (m : Nat) (hm : 0 < m) :
    jsSimilarityRound m m = 100 := by
  unfold jsSimilarityRound fp64
  rw [if_neg (by omega : ¬ m = 0)]
  dsimp only
  generalize fpScaleExp m m 1200 0 = j1
  rw [Nat.mul_comm m (2 ^ j1), natRoundHalfEven_mul _ _ hm]
  have hpow : 0 < (2:Nat) ^ j1 := pow_pos (by omega) _
  rw [if_neg (by omega : ¬ 100 * 2 ^ j1 = 0)]
  dsimp only
  generalize fpScaleExp (100 * 2 ^ j1) (2 ^ j1) 1200 0 = j2
  rw [show 100 * 2 ^ j1 * 2 ^ j2 = (100 * 2 ^ j2) * 2 ^ j1 by ring,
    natRoundHalfEven_mul _ _ hpow]
  exact jsRound_hundred _ (pow_pos (by omega) _)

set_option maxRecDepth 40000 in
/-- C7, counterexample: `c7s1` and `c7s2` both have length 40 and edit
distance 17, so the claimed formula rounds the exact value 57.5 up to 58; the
code evaluates the expression in binary64, where the quotient 23/40 rounds
below 0.575 and the product by 100 lands just below 57.5, so `Math.round`
returns 57, not 58. -/
theorem c7_counterexample :
    c7s1.length = 40 ∧ c7s2.length = 40 ∧
    levenshtein c7s1 c7s2 = 17 ∧
    calculateStringSimilarity c7s1 c7s2 = 57 ∧
    jsRound (100 * (Nat.max c7s1.length c7s2.length - levenshtein c7s1 c7s2))
      (Nat.max c7s1.length c7s2.length) = 58 := by
  have hd : levenshtein c7s1 c7s2 = 17 := by
    rw [← levMatrixDist_eq]; decide
  refine ⟨by decide, by decide, hd, by decide, ?_⟩
  rw [hd]
  decide

/-- C7, amended: the string similarity returns 0 when either input is empty,
100 on equal non-empty inputs, and otherwise the binary64 evaluation of
`round(((maxLen - levenshtein a b) / maxLen) * 100)` — `jsSimilarityRound` —
where `maxLen` is the larger length and `levenshtein` is the classic
unit-cost edit distance (which the source's dynamic-programming matrix
computes); the distance never exceeds `maxLen` and the result is always at
most 100 (hence an integer in 0..100).  At half-point inputs the binary64
value can land one below the exact rational rounding of the claimed formula
(see the counterexample). -/
theorem c7_amended_similarity_spec (a b : List Char) :
    ((a = [] ∨ b = []) → calculateStringSimilarity a b = 0) ∧
    (a ≠ [] → b ≠ [] → a = b → calculateStringSimilarity a b = 100) ∧
    (a ≠ [] → b ≠ [] →
      calculateStringSimilarity a b =
        jsSimilarityRound (Nat.max a.length b.length - levenshtein a b)
          (Nat.max a.length b.length)) ∧
    levenshtein a b ≤ Nat.max a.length b.length ∧
    calculateStringSimilarity a b ≤ 100 := by
  refine ⟨?_, ?_, ?_, levenshtein_le_max a b, ?_⟩
  · intro h
    simp only [calculateStringSimilarity]
    rw [if_pos h]
  · intro ha hb hab
    simp only [calculateStringSimilarity]
    rw [if_neg (by simp [ha, hb]), if_pos hab]
  · intro ha hb
    have hla : 0 < a.length := List.length_pos.mpr ha
    have hmax : 0 < Nat.max a.length b.length :=
      Nat.lt_of_lt_of_le hla (Nat.le_max_left _ _)
    simp only [calculateStringSimilarity]
    rw [if_neg (by simp [ha, hb])]
    by_cases hab : a = b
    · rw [if_pos hab, hab, levenshtein_self, Nat.sub_zero,
        jsSimilarityRound_self _ (by simpa [hab] using hmax)]
    · rw [if_neg hab, if_neg (by omega), levMatrixDist_eq]
  · simp only [calculateStringSimilarity]
    split_ifs with h1 h2 h3
    · omega
    · omega
    · omega
    · exact jsSimilarityRound_le_hundred _ _ (by omega) (Nat.sub_le _ _)

/-- C7, witness: the amended similarity spec applied to the concrete pairs
("ab", "ba"), ("", "ba") and ("ab", "ab"), with the hypotheses of each case
discharged. -/
theorem c7_witness :
    calculateStringSimilarity "ab".data "ba".data =
      jsSimilarityRound (Nat.max "ab".data.length "ba".data.length -
          levenshtein "ab".data "ba".data)
        (Nat.max "ab".data.length "ba".data.length) ∧
    calculateStringSimilarity [] "ba".data = 0 ∧
    calculateStringSimilarity "ab".data "ab".data = 100 ∧
    calculateStringSimilarity "ab".data "ba".data ≤ 100 :=
  ⟨(c7_amended_similarity_spec "ab".data "ba".data).2.2.1 (by decide) (by decide),
   (c7_amended_similarity_spec [] "ba".data).1 (Or.inl rfl),
   (c7_amended_similarity_spec "ab".data "ab".data).2.1 (by decide) (by decide) rfl,
   (c7_amended_similarity_spec "ab".data "ba".data).2.2.2.2⟩

end RentAI
